import Mathlib

/-!
Verification of the mongeese schema-snapshot diff-and-migration engine.

The TypeScript sources are shallowly embedded: JavaScript objects become
insertion-ordered association lists, `undefined`-able attributes become
`Option`, JSON values used as schema defaults become the flat `MValue`
type, and the migration command strings produced by the diff engine are
represented structurally by the `Cmd` inductive together with rendering
functions that reproduce the exact source templates.
-/

/-- JSON-style values that appear as schema defaults, migration values and
index options (src/src/types.d.ts `default?: any`).  The engine only ever
synthesizes the flat values below; `vdateNow` models the `new Date()`
value produced for required Date fields. -/
inductive MValue where
  | vnull
  | vstr (s : String)
  | vnum (n : Int)
  | vbool (b : Bool)
  | vdateNow
  | vemptyArr
  | vemptyObj
  deriving DecidableEq, Repr

/-- JSON.stringify of an `MValue`.  `vdateNow` renders as the quoted ISO
timestamp taken at generation time; the placeholder text stands for those
digits (no claim below depends on them). -/
def stringifyMValue : MValue → String
  | .vnull => "null"
  | .vstr s => "\"" ++ s ++ "\""
  | .vnum n => toString n
  | .vbool b => if b then "true" else "false"
  | .vdateNow => "\"<generation-time ISO timestamp>\""
  | .vemptyArr => "[]"
  | .vemptyObj => "\x7b\x7d"

/-- A nested field definition one level down (spec 3: field trees are
flattened to a bounded depth; the code paths verified here never recurse
below this level). -/
structure FieldLeaf where
  type : String
  nullable : Bool
  required : Bool
  default : Option MValue := none
  enumVals : Option (List String) := none
  deriving DecidableEq, Repr

/-- src/src/types.d.ts `FieldDefinition`.  `default`/`enum`/`nestedFields`
are optional keys; `none` models the key being absent (undefined). -/
structure FieldDefinition where
  type : String
  nullable : Bool
  required : Bool
  default : Option MValue := none
  enumVals : Option (List String) := none
  nestedFields : Option (List (String × FieldLeaf)) := none
  deriving DecidableEq, Repr

/-- One entry of `IndexDefinition.fields`: `{ field, direction }` with
direction `1` or `-1`. -/
structure IndexFieldSpec where
  field : String
  direction : Int
  deriving DecidableEq, Repr

/-- src/src/types.d.ts `IndexDefinition`; every optional key is an
`Option`. -/
structure IndexDefinition where
  fields : List IndexFieldSpec
  unique : Option Bool := none
  sparse : Option Bool := none
  partialFilterExpression : Option MValue := none
  expireAfterSeconds : Option Int := none
  collation : Option MValue := none
  text : Option Bool := none
  geoHaystack : Option Bool := none
  bucketSize : Option Int := none
  min : Option Int := none
  max : Option Int := none
  bits : Option Int := none
  name : Option String := none
  deriving DecidableEq, Repr

/-- src/src/types.d.ts `CollectionStructure` (the validator keys are not
consumed by any code verified here and are omitted).  `fields` is the
insertion-ordered entry list of the JS object. -/
structure CollectionStructure where
  fields : List (String × FieldDefinition)
  indexes : Option (List IndexDefinition) := none
  isEmpty : Option Bool := none
  deriving DecidableEq, Repr

/-- src/src/types.d.ts `Snapshot` (`_id` and `createdAt` are dropped by
every function verified here and are omitted). -/
structure Snapshot where
  version : Int
  hash : String
  collections : List (String × CollectionStructure)
  deriving DecidableEq, Repr

/-- Sort an association list by its string key, mirroring
`Object.keys(o).sort()` followed by re-insertion in sorted order (JS
object keys are unique, so sorting the entry list is the same thing;
`Array.prototype.sort` compares code units, which agrees with the
code-point order used here on the identifier-like names involved). -/
def sortPairsByKey {α : Type} (l : List (String × α)) : List (String × α) :=
  l.insertionSort (fun a b => a.1.data ≤ b.1.data)

theorem sortPairsByKey_perm {α : Type} (l : List (String × α)) :
    List.Perm (sortPairsByKey l) l :=
  List.perm_insertionSort _ l

instance {α : Type} : IsTotal (String × α) (fun a b => a.1.data ≤ b.1.data) :=
  ⟨fun a b => le_total a.1.data b.1.data⟩

instance {α : Type} : IsTrans (String × α) (fun a b => a.1.data ≤ b.1.data) :=
  ⟨fun _ _ _ h1 h2 => le_trans h1 h2⟩

theorem sortPairsByKey_sorted {α : Type} (l : List (String × α)) :
    List.Sorted (fun a b => a.1.data ≤ b.1.data) (sortPairsByKey l) :=
  List.sorted_insertionSort _ l

/-- Fields that Mongoose manages automatically and that are filtered out of
every comparison (src/src/core/diff.ts line 12). -/
def MONGOOSE_MANAGED_FIELDS : List String := ["_id", "__v"]

/-- Fields whose type changes are ignored by `compareFields`
(src/src/core/diff.ts line 15). -/
def AUTO_GENERATED_FIELDS : List String := ["_id", "__v", "createdAt", "updatedAt"]

/-- Truthiness of an `MValue`, mirroring JavaScript `if (v)`. -/
def jsTruthy : MValue → Bool
  | .vnull => false
  | .vstr s => !s.data.isEmpty
  | .vnum n => n != 0
  | .vbool b => b
  | .vdateNow => true
  | .vemptyArr => true
  | .vemptyObj => true

/-- `JSON.stringify` of an optional value; `none` models `undefined`, for
which `JSON.stringify` returns `undefined` rather than a string. -/
def stringifyOptMValue : Option MValue → Option String :=
  Option.map stringifyMValue

/-- JSON rendering of a string (the names involved never need escaping). -/
def jsonStr (s : String) : String := "\"" ++ s ++ "\""

/-- JSON rendering of a string array. -/
def stringifyStringList (l : List String) : String :=
  "[" ++ String.intercalate "," (l.map jsonStr) ++ "]"

/-- `JSON.stringify(xs?.sort())`: the enum list is sorted in place before
serialization (src/src/core/diff.ts lines 154-155). -/
def stringifyOptEnum (e : Option (List String)) : Option String :=
  e.map (fun l => stringifyStringList (l.insertionSort (fun a b => a.data ≤ b.data)))

/-- `normalizeIndex` (src/src/core/diff.ts lines 57-90) on the
array-of-objects `fields` format, which is the one every snapshot in this
development uses; the alternative `index.key` / field-map input formats
reshape into the same `fields` list and are outside the modeled
fragment. -/
def normalizeIndex (index : IndexDefinition) : IndexDefinition :=
  { fields := index.fields
    unique := some (index.unique.getD false)
    sparse := some (index.sparse.getD false)
    partialFilterExpression := index.partialFilterExpression
    expireAfterSeconds := index.expireAfterSeconds
    collation := index.collation
    text := some (index.text.getD false)
    geoHaystack := some (index.geoHaystack.getD false)
    bucketSize := index.bucketSize
    min := index.min
    max := index.max
    bits := index.bits
    name := index.name }

/-- Helper for JSON renderings: an object entry for a present optional
attribute, nothing for an absent one. -/
def optJsonEntry (k : String) : Option String → List String
  | none => []
  | some v => [jsonStr k ++ ":" ++ v]

/-- JSON rendering of a boolean. -/
def jsonBool (b : Bool) : String := if b then "true" else "false"

/-- `JSON.stringify` of one `{ field, direction }` entry. -/
def renderIndexFieldSpec (f : IndexFieldSpec) : String :=
  "\x7b\"field\":" ++ jsonStr f.field ++ ",\"direction\":" ++ toString f.direction ++ "\x7d"

/-- `JSON.stringify` of a normalized index, with keys in the insertion
order of the object literal built by `normalizeIndex` and
undefined-valued keys omitted.  `normalizeSnapshot` sorts each
collection's normalized indexes by comparing these strings
(src/src/core/diff.ts line 48; `localeCompare` agrees with code-point
order on this ASCII material). -/
def renderIndexJson (i : IndexDefinition) : String :=
  "\x7b" ++ String.intercalate ","
    (["\"fields\":[" ++ String.intercalate "," (i.fields.map renderIndexFieldSpec) ++ "]"]
      ++ optJsonEntry "unique" (i.unique.map jsonBool)
      ++ optJsonEntry "sparse" (i.sparse.map jsonBool)
      ++ optJsonEntry "partialFilterExpression" (i.partialFilterExpression.map stringifyMValue)
      ++ optJsonEntry "expireAfterSeconds" (i.expireAfterSeconds.map toString)
      ++ optJsonEntry "collation" (i.collation.map stringifyMValue)
      ++ optJsonEntry "text" (i.text.map jsonBool)
      ++ optJsonEntry "geoHaystack" (i.geoHaystack.map jsonBool)
      ++ optJsonEntry "bucketSize" (i.bucketSize.map toString)
      ++ optJsonEntry "min" (i.min.map toString)
      ++ optJsonEntry "max" (i.max.map toString)
      ++ optJsonEntry "bits" (i.bits.map toString)
      ++ optJsonEntry "name" (i.name.map jsonStr)) ++ "\x7d"

/-- Collection structure produced by `normalizeSnapshot`: managed fields
filtered out and fields sorted by name, indexes normalized and sorted by
their serialized form, `isEmpty` only carried over when it is truthy. -/
structure NormalizedCollection where
  fields : List (String × FieldDefinition)
  indexes : List IndexDefinition
  isEmpty : Option Bool := none
  deriving DecidableEq, Repr

/-- Snapshot shape produced by `normalizeSnapshot`
(src/src/types.d.ts `NormalizedSnapshot`). -/
structure NormalizedSnapshot where
  version : Int
  collections : List (String × NormalizedCollection)
  deriving DecidableEq, Repr

/-- Body of the per-collection loop of `normalizeSnapshot`
(src/src/core/diff.ts lines 25-52). -/
def normalizeCollection (collection : CollectionStructure) : NormalizedCollection :=
  { fields := sortPairsByKey
      (collection.fields.filter (fun p => !MONGOOSE_MANAGED_FIELDS.contains p.1))
    indexes := match collection.indexes with
      | some idxs => (idxs.map normalizeIndex).insertionSort
          (fun a b => (renderIndexJson a).data ≤ (renderIndexJson b).data)
      | none => []
    isEmpty := if collection.isEmpty = some true then some true else none }

/-- `normalizeSnapshot` (src/src/core/diff.ts lines 17-55). -/
def normalizeSnapshot (snapshot : Snapshot) : NormalizedSnapshot :=
  { version := snapshot.version
    collections := (sortPairsByKey snapshot.collections).map
      (fun p => (p.1, normalizeCollection p.2)) }


/-- The canonical form whose JSON text `serializeSnapshot`
(src/src/core/snapshot.ts lines 378-409) produces: `_id`, `hash` and
`createdAt` dropped, collections sorted alphabetically, fields sorted
within each collection, index lists left exactly as stored.  Only
`version` and `collections` survive into the serialized object. -/
def serializeSnapshot (snapshot : Snapshot) : Int × List (String × CollectionStructure) :=
  (snapshot.version,
    (sortPairsByKey snapshot.collections).map
      (fun p => (p.1, { p.2 with fields := sortPairsByKey p.2.fields })))

/-- `generateSnapshotHash` (src/src/core/snapshot.ts lines 411-414):
`sha256(JSON.stringify(canonical form))`.  `JSON.stringify` is injective
on these values (it escapes strings properly) and SHA-256 is taken to be
collision-free, so the digest is modeled as the canonical form itself:
two digests are equal exactly when the canonical serializations are. -/
def generateSnapshotHash (snapshot : Snapshot) : Int × List (String × CollectionStructure) :=
  serializeSnapshot snapshot

/-- Per-sampled-field definition built by
`snapCollectionForComparisonOptimized` (src/src/core/snapshot.ts lines
322-331): presence statistics collected over the sampled documents. -/
structure DatabaseFieldInfo where
  sampleCount : Nat
  presentCount : Nat
  hasNullValues : Bool
  hasUndefinedValues : Bool
  deriving DecidableEq, Repr

/-- The field definition the database sampler records for a path: the
type is always `"Mixed"` (src/src/core/snapshot.ts lines 322-331). -/
def fieldDefFromInfo (info : DatabaseFieldInfo) : FieldDefinition :=
  { type := "Mixed"
    nullable := info.hasNullValues || info.hasUndefinedValues
    required := info.presentCount == info.sampleCount }

/-- Safety classification of a migration command
(src/src/types.d.ts `MigrationCommand.safetyLevel`). -/
inductive SafetyLevel where
  | safe
  | warning
  | dangerous
  deriving DecidableEq, Repr

/-- Structural form of the migration command strings the diff engine
emits.  Each constructor corresponds to one template in
src/src/core/diff.ts; `renderCmd` below reproduces the exact text.
`renameField` is the `$rename` command of the spec's command vocabulary:
it is produced by `detectFieldRenames`-based diffing
(src/src/utilities/security-utils.ts) but, as proved below, never by
`diffSnapshots` of src/src/core/diff.ts. -/
inductive Cmd where
  | createCollection (coll : String)
  | dropCollection (coll : String)
  | setField (coll field : String) (value : MValue)
  | unsetField (coll field : String)
  | reviewTypeChange (field fromType toType : String)
  | revertTypeChange (field fromType toType : String)
  | createIndex (coll : String) (index : IndexDefinition)
  | dropIndex (coll indexName : String)
  | renameField (coll fromField toField : String)
  deriving DecidableEq, Repr

/-- `generateIndexName` (src/src/core/diff.ts lines 555-583). -/
def generateIndexName (index : IndexDefinition) : String :=
  if index.name.getD "" ≠ "" then index.name.getD ""
  else
    let fieldNames := String.intercalate "_"
      (index.fields.map (fun f => if f.direction = 1 then f.field else f.field ++ "_-1"))
    if index.expireAfterSeconds.isSome then fieldNames ++ "_ttl"
    else if index.text.getD false then fieldNames ++ "_text"
    else if index.unique.getD false then fieldNames ++ "_unique"
    else fieldNames

/-- `generateIndexCommand` (src/src/core/diff.ts lines 585-614). -/
def generateIndexCommand (collectionName : String) (index : IndexDefinition) : String :=
  let fields := String.intercalate ", "
    (index.fields.map (fun f => "\"" ++ f.field ++ "\": " ++ toString f.direction))
  let options : List String :=
    (if index.unique.getD false then ["unique: true"] else [])
    ++ (if index.sparse.getD false then ["sparse: true"] else [])
    ++ (match index.partialFilterExpression with
        | some v => if jsTruthy v then ["partialFilterExpression: " ++ stringifyMValue v] else []
        | none => [])
    ++ (match index.expireAfterSeconds with
        | some n => ["expireAfterSeconds: " ++ toString n]
        | none => [])
    ++ (match index.name with
        | some s => if !s.data.isEmpty then ["name: \"" ++ s ++ "\""] else []
        | none => [])
  let optionsStr := if options.length > 0 then ", \x7b " ++ String.intercalate ", " options ++ " \x7d" else ""
  "db.collection(\"" ++ collectionName ++ "\").createIndex(\x7b " ++ fields ++ " \x7d" ++ optionsStr ++ ")"

/-- The exact command strings built by src/src/core/diff.ts for each
structural command. -/
def renderCmd : Cmd → String
  | .createCollection coll => "db.createCollection(\"" ++ coll ++ "\")"
  | .dropCollection coll => "db.collection(\"" ++ coll ++ "\").drop()"
  | .setField coll field value =>
      "db.collection(\"" ++ coll ++ "\").updateMany(\x7b\x7d, \x7b $set: \x7b \"" ++ field
        ++ "\": " ++ stringifyMValue value ++ " \x7d \x7d)"
  | .unsetField coll field =>
      "db.collection(\"" ++ coll ++ "\").updateMany(\x7b\x7d, \x7b $unset: \x7b \"" ++ field
        ++ "\": \"\" \x7d \x7d)"
  | .reviewTypeChange field fromType toType =>
      "// TODO: Review type change for '" ++ field ++ "': " ++ fromType ++ " → " ++ toType
  | .revertTypeChange field fromType toType =>
      "// TODO: Revert type change for '" ++ field ++ "': " ++ fromType ++ " → " ++ toType
  | .createIndex coll index => generateIndexCommand coll index
  | .dropIndex coll indexName =>
      "db.collection(\"" ++ coll ++ "\").dropIndex(\"" ++ indexName ++ "\")"
  | .renameField coll fromField toField =>
      "db.collection(\"" ++ coll ++ "\").updateMany(\x7b\x7d, \x7b $rename: \x7b \"" ++ fromField
        ++ "\": \"" ++ toField ++ "\" \x7d \x7d)"

/-- Result of `injectSessionIntoCommand`: the command text either passed
through unchanged, or with `, { session }` spliced in before the closing
parenthesis, or rewritten into a pair of `// WARNING: Execute manually`
comment lines. -/
inductive InjCmd where
  | plain (c : Cmd)
  | sessioned (c : Cmd)
  | manualComment (c : Cmd)
  deriving DecidableEq, Repr

/-- The structural command underlying an injected command. -/
def InjCmd.base : InjCmd → Cmd
  | .plain c => c
  | .sessioned c => c
  | .manualComment c => c

/-- Whether a string contains a comma; the update/insert regexes of
`injectSessionIntoCommand` use `[^,]+` groups and therefore fail to match
(leaving the command unchanged) when the serialized value contains a
comma. -/
def hasComma (s : String) : Bool := s.data.contains ','

/-- `injectSessionIntoCommand` (src/src/core/diff.ts lines 616-732),
evaluated on each command shape the engine produces:

* `// TODO` comments start with `//` and are returned unchanged;
* `drop()` is rewritten to an execute-manually comment (lines 635-643);
* `dropIndex` is rewritten to an execute-manually comment (lines 670-677);
* `createIndex` hits the empty `case "createIndex"` and falls through
  unchanged (lines 645-668);
* `updateMany` commands get `, { session }` inserted before the final
  parenthesis when the backtracking regex of lines 688-698 matches, which
  on the generated shapes is exactly when no comma occurs inside the
  update document;
* `db.createCollection` gets `, { session }` via lines 719-729. -/
def injectSessionIntoCommand : Cmd → InjCmd
  | .createCollection coll => .sessioned (.createCollection coll)
  | .dropCollection coll => .manualComment (.dropCollection coll)
  | .setField coll field value =>
      if hasComma (field ++ stringifyMValue value) then .plain (.setField coll field value)
      else .sessioned (.setField coll field value)
  | .unsetField coll field =>
      if hasComma field then .plain (.unsetField coll field)
      else .sessioned (.unsetField coll field)
  | .reviewTypeChange field fromType toType => .plain (.reviewTypeChange field fromType toType)
  | .revertTypeChange field fromType toType => .plain (.revertTypeChange field fromType toType)
  | .createIndex coll index => .plain (.createIndex coll index)
  | .dropIndex coll indexName => .manualComment (.dropIndex coll indexName)
  | .renameField coll fromField toField =>
      if hasComma (fromField ++ toField) then .plain (.renameField coll fromField toField)
      else .sessioned (.renameField coll fromField toField)

/-- src/src/types.d.ts `MigrationCommand`, parametrized by the command
representation (structural before session injection, injected after).
The reporting-only `metadata` payload is not modeled. -/
structure MigrationCommand (κ : Type) where
  command : κ
  description : String
  safetyLevel : SafetyLevel
  deriving DecidableEq, Repr

/-- The per-command rewrite `cmd => ({ ...cmd, command: injectSessionIntoCommand(cmd.command) })`
of src/src/core/diff.ts lines 849-857. -/
def injectMC (m : MigrationCommand Cmd) : MigrationCommand InjCmd :=
  { command := injectSessionIntoCommand m.command
    description := m.description
    safetyLevel := m.safetyLevel }

/-- Result record of `compareFields` (src/src/core/diff.ts lines 115-167). -/
structure FieldComparison where
  changed : Bool
  changes : List String
  significantChange : Bool
  deriving DecidableEq, Repr

/-- Template-literal rendering of an optional serialized value:
an `undefined` interpolates as the text `undefined`. -/
def optStringText (o : Option String) : String := o.getD "undefined"

/-- `compareFields` (src/src/core/diff.ts lines 115-167): the five change
messages accumulate in source order; only a genuine type change away from
`Mixed` on a non-auto-generated field is significant. -/
def compareFields (fromF toF : FieldDefinition) (fieldName : String) : FieldComparison :=
  let typeChanges : List String :=
    if fromF.type ≠ "Mixed" ∧ fromF.type ≠ toF.type then
      ["type: " ++ fromF.type ++ " → " ++ toF.type]
    else []
  let significantChange : Bool :=
    if fromF.type ≠ "Mixed" ∧ fromF.type ≠ toF.type ∧ toF.type ≠ "Mixed"
        ∧ ¬ AUTO_GENERATED_FIELDS.contains fieldName = true then true else false
  let nullableChanges : List String :=
    if fromF.nullable ≠ toF.nullable then
      ["nullable: " ++ jsonBool fromF.nullable ++ " → " ++ jsonBool toF.nullable]
    else []
  let requiredChanges : List String :=
    if fromF.required ≠ toF.required then
      ["required: " ++ jsonBool fromF.required ++ " → " ++ jsonBool toF.required]
    else []
  let defaultChanges : List String :=
    if stringifyOptMValue fromF.default ≠ stringifyOptMValue toF.default then
      ["default: " ++ optStringText (stringifyOptMValue fromF.default) ++ " → "
        ++ optStringText (stringifyOptMValue toF.default)]
    else []
  let enumChanges : List String :=
    if stringifyOptEnum fromF.enumVals ≠ stringifyOptEnum toF.enumVals then
      ["enum: " ++ optStringText (stringifyOptEnum fromF.enumVals) ++ " → "
        ++ optStringText (stringifyOptEnum toF.enumVals)]
    else []
  let changes := typeChanges ++ nullableChanges ++ requiredChanges ++ defaultChanges ++ enumChanges
  { changed := changes.length > 0
    changes := changes
    significantChange := significantChange }

/-- The `up`/`down`/`warnings` triple that each diff stage accumulates. -/
structure DiffChunk where
  up : List (MigrationCommand Cmd)
  down : List (MigrationCommand Cmd)
  warnings : List String
  deriving DecidableEq, Repr

/-- One field's contribution: its up command, its down command and the
warnings pushed while handling it. -/
structure FieldDiffEntry where
  up : MigrationCommand Cmd
  down : MigrationCommand Cmd
  warnings : List String
  deriving DecidableEq, Repr

/-- The type-based default switch of src/src/core/diff.ts lines 218-240
for a required, non-nullable field without an explicit default. -/
def typeBasedDefault (t : String) : MValue :=
  if t = "String" then .vstr ""
  else if t = "Number" then .vnum 0
  else if t = "Boolean" then .vbool false
  else if t = "Date" then .vdateNow
  else if t = "Array" then .vemptyArr
  else if t = "Object" then .vemptyObj
  else .vnull

/-- The warning attached when a generated default is used
(src/src/core/diff.ts lines 244-248). -/
def generatedDefaultWarning (collectionName fieldName : String) (v : MValue) : String :=
  "⚠️  Field '" ++ fieldName ++ "' in '" ++ collectionName
    ++ "' is required but has no default. Using type-based default: " ++ stringifyMValue v

/-- The new-field branch of `diffFieldsRefined`
(src/src/core/diff.ts lines 202-274). -/
def newFieldMigration (collectionName fieldName : String) (codeField : FieldDefinition) :
    FieldDiffEntry :=
  let baseDesc := "Add field '" ++ fieldName ++ "' to collection '" ++ collectionName ++ "'"
  let p : MValue × String × List String :=
    match codeField.default with
    | some d => (d, baseDesc ++ " with default value", [])
    | none =>
      if ¬ codeField.nullable ∧ codeField.required then
        let v := typeBasedDefault codeField.type
        (v, baseDesc ++ " with generated default (required field)",
          [generatedDefaultWarning collectionName fieldName v])
      else (.vnull, baseDesc, [])
  { up := { command := .setField collectionName fieldName p.1
            description := p.2.1
            safetyLevel := .safe }
    down := { command := .unsetField collectionName fieldName
              description := "Remove field '" ++ fieldName ++ "' from collection '"
                ++ collectionName ++ "'"
              safetyLevel := .warning }
    warnings := p.2.2 }

/-- The removed-field branch of `diffFieldsRefined`
(src/src/core/diff.ts lines 277-304). -/
def removedFieldMigration (collectionName fieldName : String) : FieldDiffEntry :=
  { up := { command := .unsetField collectionName fieldName
            description := "Remove field '" ++ fieldName ++ "' from collection '"
              ++ collectionName ++ "' (no longer in code)"
            safetyLevel := .warning }
    down := { command := .setField collectionName fieldName .vnull
              description := "Restore field '" ++ fieldName ++ "' to collection '"
                ++ collectionName ++ "'"
              safetyLevel := .safe }
    warnings := ["⚠️  Field '" ++ fieldName
      ++ "' exists in database but not in code. Will be removed."] }

/-- The modified-field branch of `diffFieldsRefined`
(src/src/core/diff.ts lines 306-378): commands are produced only for a
significant change; everything else is validation-only and emits
nothing. -/
def modifiedFieldMigration (collectionName fieldName : String)
    (dbField codeField : FieldDefinition) : Option FieldDiffEntry :=
  let comparison := compareFields dbField codeField fieldName
  if comparison.changed ∧ comparison.significantChange then
    some
      { up := { command := .reviewTypeChange fieldName dbField.type codeField.type
                description := "Field '" ++ fieldName
                  ++ "' type changed significantly - review data compatibility"
                safetyLevel := .warning }
        down := { command := .revertTypeChange fieldName codeField.type dbField.type
                  description := "Revert significant type change for field '" ++ fieldName ++ "'"
                  safetyLevel := .warning }
        warnings := ["⚠️  Significant type change for '" ++ fieldName ++ "' in '"
          ++ collectionName ++ "': " ++ dbField.type ++ " → " ++ codeField.type
          ++ ". Review if data migration is needed."] }
  else none

/-- `diffFieldsRefined` (src/src/core/diff.ts lines 172-381): managed
fields filtered from both sides, then the three passes (new fields,
removed fields, modified fields) in source order. -/
def diffFieldsRefined (collectionName : String)
    (dbFields codeFields : List (String × FieldDefinition))
    (isDbCollectionEmpty : Bool) : DiffChunk :=
  if isDbCollectionEmpty then { up := [], down := [], warnings := [] }
  else
    let filteredDbFields := dbFields.filter (fun p => !MONGOOSE_MANAGED_FIELDS.contains p.1)
    let filteredCodeFields := codeFields.filter (fun p => !MONGOOSE_MANAGED_FIELDS.contains p.1)
    let newEntries := (filteredCodeFields.filter
        (fun p => (filteredDbFields.lookup p.1).isNone)).map
      (fun p => newFieldMigration collectionName p.1 p.2)
    let removedEntries := (filteredDbFields.filter
        (fun p => (filteredCodeFields.lookup p.1).isNone)).map
      (fun p => removedFieldMigration collectionName p.1)
    let modifiedEntries := filteredCodeFields.filterMap
      (fun p => match filteredDbFields.lookup p.1 with
        | some dbField => modifiedFieldMigration collectionName p.1 dbField p.2
        | none => none)
    { up := newEntries.map (·.up) ++ removedEntries.map (·.up) ++ modifiedEntries.map (·.up)
      down := newEntries.map (·.down) ++ removedEntries.map (·.down)
        ++ modifiedEntries.map (·.down)
      warnings := newEntries.flatMap (·.warnings) ++ removedEntries.flatMap (·.warnings)
        ++ modifiedEntries.flatMap (·.warnings) }

/-- `diffCollections` (src/src/core/diff.ts lines 384-438). -/
def diffCollections (fromCollections toCollections : List (String × NormalizedCollection)) :
    DiffChunk :=
  let fromNames := fromCollections.map (·.1)
  let toNames := toCollections.map (·.1)
  let added := toNames.filter (fun n => !fromNames.contains n)
  let removed := fromNames.filter (fun n => !toNames.contains n)
  { up :=
      added.map (fun n =>
        { command := .createCollection n
          description := "Create collection '" ++ n ++ "'"
          safetyLevel := .safe })
      ++ removed.map (fun n =>
        { command := .dropCollection n
          description := "Drop collection '" ++ n ++ "'"
          safetyLevel := .dangerous })
    down :=
      added.map (fun n =>
        { command := .dropCollection n
          description := "Drop collection '" ++ n ++ "'"
          safetyLevel := .dangerous })
      ++ removed.map (fun n =>
        { command := .createCollection n
          description := "Recreate collection '" ++ n ++ "'"
          safetyLevel := .safe })
    warnings :=
      added.map (fun n => "⚠️  Will create new collection '" ++ n ++ "'")
      ++ removed.map (fun n =>
        "⚠️  Will drop collection '" ++ n ++ "' - ensure it's backed up") }

/-- The content of the string `indexSignature` (src/src/core/diff.ts
lines 441-452) actually produces.  The source serializes
`{ fields, unique, sparse, expireAfterSeconds, partialFilterExpression, text }`
with `JSON.stringify(normalized, Object.keys(normalized).sort())`; an
array second argument is a property whitelist applied at every level, so
the nested `{ field, direction }` objects (whose keys are not in the
whitelist) all serialize as `{}` and only the NUMBER of indexed fields
survives into the signature.  Two such signature strings are equal
exactly when the records below are equal. -/
structure IndexSignature where
  expireAfterSeconds : Option Int
  fieldsCount : Nat
  partialFilterExpression : Option MValue
  sparse : Bool
  text : Bool
  unique : Bool
  deriving DecidableEq, Repr

/-- `indexSignature` (src/src/core/diff.ts lines 441-452). -/
def indexSignature (index : IndexDefinition) : IndexSignature :=
  { expireAfterSeconds := index.expireAfterSeconds
    fieldsCount := index.fields.length
    partialFilterExpression := index.partialFilterExpression
    sparse := index.sparse.getD false
    text := index.text.getD false
    unique := index.unique.getD false }

/-- `Map.prototype.set`: an existing key keeps its position but takes the
new value, a new key is appended. -/
def jsMapSet {κ α : Type} [DecidableEq κ] (m : List (κ × α)) (k : κ) (v : α) :
    List (κ × α) :=
  if (m.lookup k).isSome then m.map (fun p => if p.1 = k then (k, v) else p)
  else m ++ [(k, v)]

/-- The signature maps of `diffIndexes` (src/src/core/diff.ts lines
465-474), built by iterated `Map.set`. -/
def buildSignatureMap (idxs : List IndexDefinition) : List (IndexSignature × IndexDefinition) :=
  idxs.foldl (fun m i => jsMapSet m (indexSignature i) i) []

/-- The added-index entry of `diffIndexes` (src/src/core/diff.ts lines
480-513). -/
def addedIndexEntry (collectionName : String) (toIndex : IndexDefinition) : FieldDiffEntry :=
  let fields := String.intercalate ", "
    (toIndex.fields.map (fun f => f.field ++ ": " ++ toString f.direction))
  let description := "Create index on " ++ fields ++ " for collection '" ++ collectionName ++ "'"
    ++ (match toIndex.expireAfterSeconds with
        | some n => " (TTL: " ++ toString n ++ "s)"
        | none => "")
  let indexName := generateIndexName toIndex
  { up := { command := .createIndex collectionName toIndex
            description := description
            safetyLevel := .safe }
    down := { command := .dropIndex collectionName indexName
              description := "Drop index '" ++ indexName ++ "' from collection '"
                ++ collectionName ++ "'"
              safetyLevel := .warning }
    warnings := [] }

/-- The removed-index entry of `diffIndexes` (src/src/core/diff.ts lines
516-550), including the TTL warning. -/
def removedIndexEntry (collectionName : String) (fromIndex : IndexDefinition) : FieldDiffEntry :=
  let indexName := generateIndexName fromIndex
  let description := "Drop index '" ++ indexName ++ "' from collection '" ++ collectionName ++ "'"
    ++ (if fromIndex.expireAfterSeconds.isSome then " (TTL index)" else "")
  { up := { command := .dropIndex collectionName indexName
            description := description
            safetyLevel := .warning }
    down := { command := .createIndex collectionName fromIndex
              description := "Recreate index '" ++ indexName ++ "' on collection '"
                ++ collectionName ++ "'"
              safetyLevel := .safe }
    warnings :=
      if fromIndex.expireAfterSeconds.isSome then
        ["⚠️  TTL index '" ++ indexName ++ "' on '" ++ collectionName
          ++ "' will be dropped. Ensure this is intended."]
      else [] }

/-- `diffIndexes` (src/src/core/diff.ts lines 455-553): canonical
signature set difference over the two signature maps. -/
def diffIndexes (collectionName : String)
    (fromIndexes toIndexes : List IndexDefinition) : DiffChunk :=
  let fromSignatureMap := buildSignatureMap fromIndexes
  let toSignatureMap := buildSignatureMap toIndexes
  let fromSignatures := fromSignatureMap.map (·.1)
  let toSignatures := toSignatureMap.map (·.1)
  let addedEntries := (toSignatureMap.filter (fun p => !fromSignatures.contains p.1)).map
    (fun p => addedIndexEntry collectionName p.2)
  let removedEntries := (fromSignatureMap.filter (fun p => !toSignatures.contains p.1)).map
    (fun p => removedIndexEntry collectionName p.2)
  { up := addedEntries.map (·.up) ++ removedEntries.map (·.up)
    down := addedEntries.map (·.down) ++ removedEntries.map (·.down)
    warnings := addedEntries.flatMap (·.warnings) ++ removedEntries.flatMap (·.warnings) }

/-- One `added`/`removed`/`modified` name bucket of `DiffResult.metadata`
(src/src/types.d.ts lines 89-111). -/
structure NameChanges where
  added : List String := []
  removed : List String := []
  modified : List String := []
  deriving DecidableEq, Repr

/-- The `metadata.fields` bucket, which also tracks renames. -/
structure FieldChanges where
  added : List String := []
  removed : List String := []
  modified : List String := []
  renamed : List (String × String) := []
  deriving DecidableEq, Repr

/-- `DiffResult.metadata` (src/src/types.d.ts lines 89-111). -/
structure DiffMetadata where
  collections : NameChanges
  fields : FieldChanges
  indexes : NameChanges
  validators : NameChanges
  deriving DecidableEq, Repr

/-- `DiffResult` (src/src/types.d.ts lines 85-112); the commands carry
their session-injected form. -/
structure DiffResult where
  up : List (MigrationCommand InjCmd)
  down : List (MigrationCommand InjCmd)
  warnings : List String
  metadata : DiffMetadata
  deriving DecidableEq, Repr

/-- The body of the per-collection loop of `diffSnapshots` for a
collection present in both snapshots (src/src/core/diff.ts lines
797-835): field diff and index diff, each appended only when it produced
at least one command. -/
def collectionFieldIndexDiff (collectionName : String)
    (dbCollection codeCollection : NormalizedCollection) : DiffChunk :=
  let fieldDiff := diffFieldsRefined collectionName dbCollection.fields codeCollection.fields
    (dbCollection.isEmpty.getD false)
  let indexDiff := diffIndexes collectionName dbCollection.indexes codeCollection.indexes
  let fieldPart := if fieldDiff.up.length > 0 ∨ fieldDiff.down.length > 0 then fieldDiff
    else { up := [], down := [], warnings := [] }
  let indexPart := if indexDiff.up.length > 0 ∨ indexDiff.down.length > 0 then indexDiff
    else { up := [], down := [], warnings := [] }
  { up := fieldPart.up ++ indexPart.up
    down := fieldPart.down ++ indexPart.down
    warnings := fieldPart.warnings ++ indexPart.warnings }

/-- `diffSnapshots` (src/src/core/diff.ts lines 737-875).  Note that the
`fields`, `indexes` and `validators` buckets of the metadata are
initialized empty at lines 760-765 and never populated afterwards; only
`metadata.collections` is filled in. -/
def diffSnapshots (dbSnapshot codeSnapshot : Snapshot) : DiffResult :=
  let normalizedDb := normalizeSnapshot dbSnapshot
  let normalizedCode := normalizeSnapshot codeSnapshot
  let collectionDiff := diffCollections normalizedDb.collections normalizedCode.collections
  let dbCollectionNames := normalizedDb.collections.map (·.1)
  let codeCollectionNames := normalizedCode.collections.map (·.1)
  let perCollection := normalizedCode.collections.map
    (fun p => match normalizedDb.collections.lookup p.1 with
      | some dbCollection => collectionFieldIndexDiff p.1 dbCollection p.2
      | none => ({ up := [], down := [], warnings := [] } : DiffChunk))
  let allUp := collectionDiff.up ++ perCollection.flatMap (·.up)
  let allDown := collectionDiff.down ++ perCollection.flatMap (·.down)
  let allWarnings := collectionDiff.warnings ++ perCollection.flatMap (·.warnings)
  let modifiedCollections := (normalizedCode.collections.filter
    (fun p => match normalizedDb.collections.lookup p.1 with
      | some dbCollection =>
        let chunk := collectionFieldIndexDiff p.1 dbCollection p.2
        !chunk.up.isEmpty || !chunk.down.isEmpty
      | none => false)).map (·.1)
  { up := allUp.map injectMC
    down := allDown.map injectMC
    warnings := allWarnings
    metadata :=
      { collections :=
          { added := codeCollectionNames.filter (fun n => !dbCollectionNames.contains n)
            removed := dbCollectionNames.filter (fun n => !codeCollectionNames.contains n)
            modified := modifiedCollections }
        fields := {}
        indexes := {}
        validators := {} } }

/-- One rename candidate of `detectFieldRenames`
(src/src/utilities/security-utils.ts lines 238-300). -/
structure RenameCandidate where
  fromField : String
  toField : String
  confidence : ℚ
  deriving DecidableEq, Repr

/-- The five-signal similarity score of `detectFieldRenames`
(src/src/utilities/security-utils.ts lines 260-280): type 0.4,
nullable 0.2, required 0.2, default 0.1, enum 0.1. -/
def renameConfidence (fromField toField : FieldDefinition) : ℚ :=
  (if fromField.type = toField.type then (4 : ℚ)/10 else 0)
  + (if fromField.nullable = toField.nullable then (2 : ℚ)/10 else 0)
  + (if fromField.required = toField.required then (2 : ℚ)/10 else 0)
  + (if stringifyOptMValue fromField.default = stringifyOptMValue toField.default
      then (1 : ℚ)/10 else 0)
  + (if stringifyOptEnum fromField.enumVals = stringifyOptEnum toField.enumVals
      then (1 : ℚ)/10 else 0)

/-- `detectFieldRenames` (src/src/utilities/security-utils.ts lines
238-300): for every removed field, the best-scoring added field with
confidence above 0.7, greedy in iteration order.  This function backs the
rename behaviour the specification describes; it lives in an unused
utility module and is never called by `diffSnapshots` of
src/src/core/diff.ts. -/
def detectFieldRenames (fromFields toFields : List (String × FieldDefinition)) :
    List RenameCandidate :=
  (fromFields.filter (fun p => (toFields.lookup p.1).isNone)).filterMap
    (fun p =>
      toFields.foldl
        (fun best q =>
          if (fromFields.lookup q.1).isSome then best
          else
            let confidence := renameConfidence p.2 q.2
            let beatsBest : Bool := match best with
              | none => true
              | some b => confidence > b.confidence
            if confidence > 7/10 ∧ beatsBest then
              some { fromField := p.1, toField := q.1, confidence := confidence }
            else best)
        none)

/-- Direction of a migration run. -/
inductive Dir where
  | up
  | down
  deriving DecidableEq, Repr

/-- A JavaScript error as the executor observes it: its `message` and its
`name`. -/
structure JsError where
  message : String
  name : String
  deriving DecidableEq, Repr

/-- JavaScript `String.prototype.includes` for the non-empty literals the
executor tests with. -/
def jsIncludes (s sub : String) : Bool := decide (sub.data <:+: s.data)

/-- The session-error test of the outer catch of `executeMigration`
(src/unnamed/part_013 lines 123-128): a truthy message containing
`session` or `Session`, or the `MongoExpiredSessionError` name. -/
def isSessionRelatedError (e : JsError) : Bool :=
  !e.message.data.isEmpty
    && (jsIncludes e.message "session" || jsIncludes e.message "Session"
        || e.name == "MongoExpiredSessionError")

/-- Outcome of one fallible step of the executor's environment. -/
inductive StepOutcome where
  | ok
  | throws (e : JsError)
  deriving DecidableEq, Repr

/-- The storage/driver behaviour `executeMigration` runs against: the
outcome of each fallible step, and the values `Date.now()` returns at the
start, at the in-transaction ledger write and at the retry ledger
write. -/
structure ExecEnv where
  load : StepOutcome
  startSession : StepOutcome
  txLogic : StepOutcome
  txCommit : StepOutcome
  retryLoad : StepOutcome
  retryLogic : StepOutcome
  nowStart : Int := 0
  nowTx : Int := 0
  nowRetry : Int := 0
  deriving DecidableEq, Repr

/-- Observable actions of one `executeMigration` run, in order. -/
inductive ExecEvent where
  | logicRun (direction : Dir) (inTransaction : Bool)
  | waited
  | ledgerWrite (isApplied : Bool) (inSession : Bool) (executionTime : Int)
  deriving DecidableEq, Repr

/-- The durable state after a run: whether the migration's storage
commands are committed, and the `isApplied` value of the ledger record if
one was written (`setMigrationApplied`, src/unnamed/part_012 lines
450-468, upserts `isApplied` with the optional session it is given). -/
structure ExecState where
  committedLogic : Bool
  ledger : Option Bool
  deriving DecidableEq, Repr

/-- Result of one `executeMigration` run: the error it re-throws if any,
the durable state, and the event trace. -/
structure ExecResult where
  thrown : Option JsError
  state : ExecState
  events : List ExecEvent
  deriving DecidableEq, Repr

/-- The outer catch of `executeMigration` (src/unnamed/part_013 lines
119-181): a session-related error triggers one reload, a direct
(session-less) run of the logic, a 100ms wait and a session-less ledger
write; any other error is logged and re-thrown. -/
def executeMigrationOuterCatch (env : ExecEnv) (direction : Dir) (e : JsError) : ExecResult :=
  if isSessionRelatedError e then
    match env.retryLoad with
    | .throws e2 => { thrown := some e2, state := ⟨false, none⟩, events := [] }
    | .ok =>
      match env.retryLogic with
      | .throws e2 =>
        { thrown := some e2, state := ⟨false, none⟩
          events := [.logicRun direction false] }
      | .ok =>
        let executionTime := env.nowRetry - env.nowStart
        { thrown := none
          state := ⟨true, some (direction == Dir.up)⟩
          events := [.logicRun direction false, .waited,
            .ledgerWrite (direction == Dir.up) false executionTime] }
  else { thrown := some e, state := ⟨false, none⟩, events := [] }

/-- `executeMigration` (src/unnamed/part_013 lines 45-182).  Two facts of
the source shape this model:

* inside `withTransaction`, `recordMigrationApplied` is called WITHOUT
  the session (line 102), so `setMigrationApplied`'s `updateOne` runs
  outside the transaction and commits immediately, before the
  transaction itself commits;
* the catch around `withTransaction` (lines 112-115) only logs the
  error, so any failure of the transactional attempt — the logic
  throwing, or the commit failing — is swallowed and the function
  returns normally; only errors thrown by `loadMigrationFile` or
  `startSession` reach the outer catch and its no-session retry. -/
def executeMigration (env : ExecEnv) (direction : Dir) (dry : Bool) : ExecResult :=
  if dry then { thrown := none, state := ⟨false, none⟩, events := [] }
  else
    match env.load with
    | .throws e => executeMigrationOuterCatch env direction e
    | .ok =>
      match env.startSession with
      | .throws e => executeMigrationOuterCatch env direction e
      | .ok =>
        match env.txLogic with
        | .throws _ =>
          { thrown := none, state := ⟨false, none⟩
            events := [.logicRun direction true] }
        | .ok =>
          let executionTime := env.nowTx - env.nowStart
          let events := [.logicRun direction true,
            .ledgerWrite (direction == Dir.up) false executionTime]
          match env.txCommit with
          | .ok =>
            { thrown := none, state := ⟨true, some (direction == Dir.up)⟩, events }
          | .throws _ =>
            { thrown := none, state := ⟨false, some (direction == Dir.up)⟩, events }

/-- A pending migration as `applyMigrations` sees it: whether
`validateMigrationFile` accepts it, and the behaviour of its
execution. -/
structure PendingMigration where
  valid : Bool
  env : ExecEnv
  deriving DecidableEq, Repr

/-- Result of an `applyMigrations` batch: the propagated error if any,
how many migrations succeeded before it (the count the failure report
states), and the result of every migration that was executed. -/
structure ApplyResult where
  thrown : Option JsError
  successCount : Nat
  executed : List ExecResult
  deriving DecidableEq, Repr

/-- The execution loop of `applyMigrations` (src/unnamed/part_013 lines
250-278): run migrations in order, stop at the first one whose
`executeMigration` throws, reporting the success count. -/
def applyMigrationsGo (dry : Bool) :
    List PendingMigration → Nat → List ExecResult → ApplyResult
  | [], n, acc => { thrown := none, successCount := n, executed := acc }
  | m :: rest, n, acc =>
    let r := executeMigration m.env Dir.up dry
    match r.thrown with
    | some e => { thrown := some e, successCount := n, executed := acc ++ [r] }
    | none => applyMigrationsGo dry rest (n + 1) (acc ++ [r])

/-- `applyMigrations` (src/unnamed/part_013 lines 187-286): validate all
pending migrations first (fail-fast before any execution), then execute
them in order. -/
def applyMigrations (pendingMigrations : List PendingMigration) (dry : Bool) : ApplyResult :=
  if pendingMigrations.all (·.valid) then applyMigrationsGo dry pendingMigrations 0 []
  else { thrown := some ⟨"Migration validation failed", "Error"⟩, successCount := 0
         executed := [] }

/-- Field definition `{ type: "String", nullable: false, required: true }`
used by the end-to-end scenario of claim C5. -/
def strFieldDef : FieldDefinition := { type := "String", nullable := false, required := true }

/-- Observed `users` collection of the C5 scenario: fields `name`, `email`,
no indexes. -/
def usersDbCollection : CollectionStructure :=
  { fields := [("name", strFieldDef), ("email", strFieldDef)], indexes := some [] }

/-- The declared unique sparse index on `phone` of the C5 scenario. -/
def phoneIndex : IndexDefinition :=
  { fields := [{ field := "phone", direction := 1 }], unique := some true, sparse := some true }

/-- Declared `users` collection of the C5 scenario: `name`, `email` plus the
required `phone` field and the unique sparse index on it. -/
def usersCodeCollection : CollectionStructure :=
  { fields := [("name", strFieldDef), ("email", strFieldDef), ("phone", strFieldDef)]
    indexes := some [phoneIndex] }

/-- Observed snapshot of the C5 scenario. -/
def dbSnapshotC5 : Snapshot :=
  { version := 1, hash := "", collections := [("users", usersDbCollection)] }

/-- Declared snapshot of the C5 scenario. -/
def codeSnapshotC5 : Snapshot :=
  { version := 1, hash := "", collections := [("users", usersCodeCollection)] }

/-- The normalized form of the declared `phone` index. -/
def phoneIndexNormalized : IndexDefinition :=
  { fields := [{ field := "phone", direction := 1 }]
    unique := some true
    sparse := some true
    text := some false
    geoHaystack := some false }

/-- C5, counterexample.  The claim requires `metadata.fields.added` to be
`["phone"]`, but `diffSnapshots` initializes the field-level metadata
buckets empty and never populates them (src/src/core/diff.ts lines
760-765 set them up; no later line writes to them), so the bucket is
`[]`. -/
theorem C5_fields_metadata_counterexample :
    (diffSnapshots dbSnapshotC5 codeSnapshotC5).metadata.fields.added ≠ ["phone"] := by
  decide

/-- C5, amended.  On the end-to-end scenario (observed `users` with
`name`/`email`; declared `users` adds required `phone` and a unique
sparse index on it) the diff emits exactly one safe up command setting
`phone` to the empty string (session-injected) and one safe up command
creating the index; the down list holds exactly the inverses — the unset
of `phone` (session-injected) and the index drop, the latter rewritten
into an execute-manually comment; the only warning reports the generated
default; and `metadata.fields.added` is `[]` because field-level metadata
is never populated. -/
theorem C5_end_to_end_amended :
    (diffSnapshots dbSnapshotC5 codeSnapshotC5).up =
      [{ command := .sessioned (.setField "users" "phone" (.vstr ""))
         description := "Add field 'phone' to collection 'users' with generated default (required field)"
         safetyLevel := .safe },
       { command := .plain (.createIndex "users" phoneIndexNormalized)
         description := "Create index on phone: 1 for collection 'users'"
         safetyLevel := .safe }]
    ∧ (diffSnapshots dbSnapshotC5 codeSnapshotC5).down =
      [{ command := .sessioned (.unsetField "users" "phone")
         description := "Remove field 'phone' from collection 'users'"
         safetyLevel := .warning },
       { command := .manualComment (.dropIndex "users" "phone_unique")
         description := "Drop index 'phone_unique' from collection 'users'"
         safetyLevel := .warning }]
    ∧ (diffSnapshots dbSnapshotC5 codeSnapshotC5).warnings =
      ["⚠️  Field 'phone' in 'users' is required but has no default. Using type-based default: \"\""]
    ∧ (diffSnapshots dbSnapshotC5 codeSnapshotC5).metadata.fields.added = [] := by
  refine ⟨?_, ?_, ?_, ?_⟩ <;> decide

/-- The `age`/`userAge` field definition of the rename scenario of claim
C1: `{ type: Number, nullable: true, required: false }`. -/
def ageFieldDef : FieldDefinition := { type := "Number", nullable := true, required := false }

/-- Observed snapshot of the C1 scenario: `users` with only `age`. -/
def dbSnapshotC1 : Snapshot :=
  { version := 1, hash := ""
    collections := [("users", { fields := [("age", ageFieldDef)], indexes := some [] })] }

/-- Declared snapshot of the C1 scenario: `users` with only `userAge`,
attribute-identical to `age`. -/
def codeSnapshotC1 : Snapshot :=
  { version := 1, hash := ""
    collections := [("users", { fields := [("userAge", ageFieldDef)], indexes := some [] })] }

/-- Whether a command is the atomic `$rename` command of the command
vocabulary. -/
def Cmd.isRename : Cmd → Bool
  | .renameField _ _ _ => true
  | _ => false

/-- C1, counterexample.  On the very scenario the claim names — `age`
removed, `userAge` added with identical type/nullable/required/default/
enum, so the five-signal confidence is 1 > 0.7 (third conjunct, computed
by the `detectFieldRenames` scorer the specification describes) —
`diffSnapshots` emits a separate add-field pair and remove-field pair and
no rename command at all: the rename inference exists only in the unused
`security-utils` module and is never called from src/src/core/diff.ts. -/
theorem C1_rename_counterexample :
    (diffSnapshots dbSnapshotC1 codeSnapshotC1).up =
      [{ command := .sessioned (.setField "users" "userAge" .vnull)
         description := "Add field 'userAge' to collection 'users'"
         safetyLevel := .safe },
       { command := .sessioned (.unsetField "users" "age")
         description := "Remove field 'age' from collection 'users' (no longer in code)"
         safetyLevel := .warning }]
    ∧ ((diffSnapshots dbSnapshotC1 codeSnapshotC1).up
        ++ (diffSnapshots dbSnapshotC1 codeSnapshotC1).down).filter
        (fun k => k.command.base.isRename) = []
    ∧ detectFieldRenames [("age", ageFieldDef)] [("userAge", ageFieldDef)] =
      [{ fromField := "age", toField := "userAge", confidence := 1 }] := by
  have h : renameConfidence ageFieldDef ageFieldDef = 1 := by
    norm_num [renameConfidence, stringifyOptMValue, stringifyOptEnum, ageFieldDef]
  refine ⟨by decide, by decide, ?_⟩
  simp only [detectFieldRenames, List.filter, List.lookup, List.filterMap, List.foldl]
  norm_num [h]
  decide

/-- Environment for claim C2: load and session start succeed, the forward
logic succeeds inside the transaction, and the transaction then fails at
commit. -/
def envCommitFails : ExecEnv :=
  { load := .ok, startSession := .ok, txLogic := .ok
    txCommit := .throws { message := "transient error while committing transaction", name := "MongoError" }
    retryLoad := .ok, retryLogic := .ok, nowStart := 0, nowTx := 5, nowRetry := 0 }

/-- C2, evaluation at the failing input.  When the transaction fails at
commit after the forward logic ran, the committed state has
`ledger = some true` (the migration is marked applied) while the
migration's commands are not committed — because `recordMigrationApplied`
is invoked without the session (src/unnamed/part_013 line 102, despite
the comment on lines 98-101), every ledger write happens outside the
session, and the commit failure itself is swallowed. -/
theorem C2_ledger_write_not_transactional :
    (executeMigration envCommitFails Dir.up false).state =
      { committedLogic := false, ledger := some true }
    ∧ (executeMigration envCommitFails Dir.up false).thrown = none
    ∧ (executeMigration envCommitFails Dir.up false).events.all
        (fun e => match e with
          | .ledgerWrite _ inSession _ => !inSession
          | _ => true) = true := by
  refine ⟨?_, ?_, ?_⟩ <;> decide

/-- Environment of a migration whose forward logic throws a plain
(non-capability) error inside the transaction. -/
def envLogicThrows : ExecEnv :=
  { load := .ok, startSession := .ok
    txLogic := .throws { message := "boom", name := "Error" }
    txCommit := .ok, retryLoad := .ok, retryLogic := .ok }

/-- Environment of a migration that succeeds transactionally. -/
def envAllOk : ExecEnv :=
  { load := .ok, startSession := .ok, txLogic := .ok, txCommit := .ok
    retryLoad := .ok, retryLogic := .ok }

/-- C3, evaluation at the failing input.  A batch of two valid migrations
where the first one's forward logic throws a non-capability error inside
the transaction: the catch around `withTransaction` (src/unnamed/part_013
lines 112-115) only logs the error, so `executeMigration` returns
normally, the batch is NOT aborted — the second migration still runs and
commits — and the batch reports overall success with a success count of
2, counting the failed migration. -/
theorem C3_swallowed_failure_continues_batch :
    isSessionRelatedError { message := "boom", name := "Error" } = false
    ∧ (applyMigrations [{ valid := true, env := envLogicThrows },
        { valid := true, env := envAllOk }] false).thrown = none
    ∧ (applyMigrations [{ valid := true, env := envLogicThrows },
        { valid := true, env := envAllOk }] false).successCount = 2
    ∧ ((applyMigrations [{ valid := true, env := envLogicThrows },
        { valid := true, env := envAllOk }] false).executed.map
        (fun r => r.state.committedLogic)) = [false, true] := by
  refine ⟨?_, ?_, ?_, ?_⟩ <;> decide

/-- Environment for claim C4: the transactional attempt raises a
capability error — one that the executor's own session test recognizes —
exactly once, from inside `withTransaction`. -/
def envCapabilityError : ExecEnv :=
  { load := .ok, startSession := .ok
    txLogic := .throws { message := "This MongoDB deployment does not support sessions or transactions"
                         name := "MongoServerError" }
    txCommit := .ok, retryLoad := .ok, retryLogic := .ok
    nowStart := 0, nowTx := 0, nowRetry := 7 }

/-- C4, evaluation at the failing input.  The capability error is
session-related by the executor's own test (first conjunct), it is raised
exactly once, during the transactional attempt — yet the inner catch of
src/unnamed/part_013 lines 112-115 swallows it before it can reach the
outer catch that implements the no-session retry: no retry happens, the
logic is never re-run without a session, no wait occurs, no ledger record
is written, and the migration is reported successful. -/
theorem C4_capability_error_swallowed_no_retry :
    isSessionRelatedError { message := "This MongoDB deployment does not support sessions or transactions"
                            name := "MongoServerError" } = true
    ∧ (executeMigration envCapabilityError Dir.up false).thrown = none
    ∧ (executeMigration envCapabilityError Dir.up false).state =
        { committedLogic := false, ledger := none }
    ∧ (executeMigration envCapabilityError Dir.up false).events = [.logicRun Dir.up true] := by
  refine ⟨?_, ?_, ?_, ?_⟩ <;> decide

/-- A successful lookup returns an entry of the list. -/
theorem lookup_some_mem {α : Type} {l : List (String × α)} {k : String} {v : α}
    (h : l.lookup k = some v) : (k, v) ∈ l := by
  induction l with
  | nil => simp [List.lookup] at h
  | cons p t ih =>
    rw [List.lookup] at h
    by_cases hk : k = p.1
    · subst hk
      simp at h
      subst h
      exact List.mem_cons_self _ _
    · rw [beq_false_of_ne hk] at h
      exact List.mem_cons_of_mem _ (ih h)

/-- Looking up a key that does not occur returns `none`. -/
theorem lookup_eq_none_of_not_mem {α : Type} {l : List (String × α)} {k : String}
    (h : k ∉ l.map Prod.fst) : l.lookup k = none := by
  induction l with
  | nil => simp [List.lookup]
  | cons p t ih =>
    rw [List.map_cons, List.mem_cons] at h
    push_neg at h
    rw [List.lookup, beq_false_of_ne h.1]
    exact ih h.2

/-- A successful lookup means the key occurs. -/
theorem mem_keys_of_lookup_some {α : Type} {l : List (String × α)} {k : String} {v : α}
    (h : l.lookup k = some v) : k ∈ l.map Prod.fst :=
  List.mem_map.mpr ⟨(k, v), lookup_some_mem h, rfl⟩

/-- Lookup commutes with mapping over the values of an association
list. -/
theorem lookup_map_value {α β : Type} (f : α → β) (l : List (String × α)) (k : String) :
    (l.map (fun p => (p.1, f p.2))).lookup k = (l.lookup k).map f := by
  induction l with
  | nil => simp [List.lookup]
  | cons p t ih =>
    by_cases hk : k = p.1
    · subst hk
      simp [List.lookup]
    · simp only [List.map_cons, List.lookup, beq_false_of_ne hk]
      exact ih

/-- On an association list with distinct keys, lookup is invariant under
permutation. -/
theorem perm_lookup_eq {α : Type} {l1 l2 : List (String × α)}
    (hp : List.Perm l1 l2) (hnd : (l1.map Prod.fst).Nodup) (k : String) :
    l1.lookup k = l2.lookup k := by
  induction hp with
  | nil => rfl
  | cons p hp ih =>
    rw [List.map_cons] at hnd
    by_cases hk : k = p.1
    · simp [List.lookup, hk]
    · simp only [List.lookup, beq_false_of_ne hk]
      exact ih (List.nodup_cons.mp hnd).2
  | swap x y l =>
    rw [List.map_cons, List.map_cons] at hnd
    have h1 := List.nodup_cons.mp hnd
    have h2 := List.nodup_cons.mp h1.2
    have hyx : y.1 ≠ x.1 := fun h => h1.1 (h ▸ List.mem_cons_self _ _)
    by_cases hky : k = y.1
    · subst hky
      simp [List.lookup, beq_self_eq_true, beq_false_of_ne hyx]
    · by_cases hkx : k = x.1
      · subst hkx
        simp [List.lookup, beq_self_eq_true, beq_false_of_ne hky]
      · simp [List.lookup, beq_false_of_ne hky, beq_false_of_ne hkx]
  | trans h1 _ ih1 ih2 =>
    exact (ih1 hnd).trans (ih2 ((h1.map Prod.fst).nodup_iff.mp hnd))

/-- Two association lists that are sorted by key, have distinct keys and
agree on every lookup are equal. -/
theorem sorted_nodup_lookup_ext {α : Type} :
    ∀ (l1 l2 : List (String × α)),
      List.Sorted (fun a b => a.1.data ≤ b.1.data) l1 →
      List.Sorted (fun a b => a.1.data ≤ b.1.data) l2 →
      (l1.map Prod.fst).Nodup → (l2.map Prod.fst).Nodup →
      (∀ c, l1.lookup c = l2.lookup c) → l1 = l2
  | [], [], _, _, _, _, _ => rfl
  | [], q :: t2, _, _, _, _, h => by
    have := h q.1
    simp [List.lookup] at this
  | p :: t1, [], _, _, _, _, h => by
    have := h p.1
    simp [List.lookup] at this
  | p :: t1, q :: t2, s1, s2, n1, n2, h => by
    rw [List.map_cons] at n1 n2
    have n1' := List.nodup_cons.mp n1
    have n2' := List.nodup_cons.mp n2
    have hp2 : (q :: t2).lookup p.1 = some p.2 := by
      rw [← h p.1, List.lookup, beq_self_eq_true]
    have hq1 : (p :: t1).lookup q.1 = some q.2 := by
      rw [h q.1, List.lookup, beq_self_eq_true]
    have hkeq : p.1 = q.1 := by
      by_contra hne
      have hpmem : p.1 ∈ t2.map Prod.fst := by
        rcases List.mem_cons.mp (lookup_some_mem hp2) with h' | h'
        · exact absurd (congrArg Prod.fst h') hne
        · exact List.mem_map.mpr ⟨_, h', rfl⟩
      have hqmem : q.1 ∈ t1.map Prod.fst := by
        rcases List.mem_cons.mp (lookup_some_mem hq1) with h' | h'
        · exact absurd (congrArg Prod.fst h').symm hne
        · exact List.mem_map.mpr ⟨_, h', rfl⟩
      rcases List.mem_map.mp hpmem with ⟨a, ha, hafst⟩
      rcases List.mem_map.mp hqmem with ⟨b, hb, hbfst⟩
      have hqa : q.1.data ≤ p.1.data := hafst ▸ (List.sorted_cons.mp s2).1 a ha
      have hpb : p.1.data ≤ q.1.data := hbfst ▸ (List.sorted_cons.mp s1).1 b hb
      have hdeq : p.1.data = q.1.data := le_antisymm hpb hqa
      exact hne (congrArg String.mk hdeq)
    have hveq : p.2 = q.2 := by
      rw [List.lookup, hkeq, beq_self_eq_true] at hp2
      simpa using hp2.symm
    have hpq : p = q := Prod.ext hkeq hveq
    subst hpq
    have htail : t1 = t2 := by
      refine sorted_nodup_lookup_ext t1 t2 (List.sorted_cons.mp s1).2 (List.sorted_cons.mp s2).2
        n1'.2 n2'.2 ?_
      intro c
      by_cases hc : c = p.1
      · subst hc
        rw [lookup_eq_none_of_not_mem n1'.1, lookup_eq_none_of_not_mem n2'.1]
      · have hcc := h c
        rw [List.lookup, List.lookup, beq_false_of_ne hc] at hcc
        exact hcc
    rw [htail]

/-- Nodup of the keys transfers through `sortPairsByKey`. -/
theorem sortPairsByKey_keys_nodup {α : Type} {l : List (String × α)}
    (hnd : (l.map Prod.fst).Nodup) : ((sortPairsByKey l).map Prod.fst).Nodup :=
  ((sortPairsByKey_perm l).map Prod.fst).nodup_iff.mpr hnd

/-- Sorting by key maps key-distinct permutations to the same list. -/
theorem sortPairsByKey_eq_of_perm {α : Type} {l1 l2 : List (String × α)}
    (hp : List.Perm l1 l2) (hnd : (l1.map Prod.fst).Nodup) :
    sortPairsByKey l1 = sortPairsByKey l2 := by
  have hnd2 : (l2.map Prod.fst).Nodup := ((hp.map Prod.fst).nodup_iff).mp hnd
  refine sorted_nodup_lookup_ext _ _ (sortPairsByKey_sorted l1) (sortPairsByKey_sorted l2)
    (sortPairsByKey_keys_nodup hnd) (sortPairsByKey_keys_nodup hnd2) ?_
  intro c
  calc (sortPairsByKey l1).lookup c
      = l1.lookup c := perm_lookup_eq (sortPairsByKey_perm l1) (sortPairsByKey_keys_nodup hnd) c
    _ = l2.lookup c := perm_lookup_eq hp hnd c
    _ = (sortPairsByKey l2).lookup c :=
        (perm_lookup_eq (sortPairsByKey_perm l2) (sortPairsByKey_keys_nodup hnd2) c).symm

/-- The canonical per-collection form inside `serializeSnapshot`: fields
sorted by name, everything else (in particular the index list) kept
verbatim. -/
def canonCollection (c : CollectionStructure) : CollectionStructure :=
  { c with fields := sortPairsByKey c.fields }

/-- A snapshot's collection content at one name, in canonical form. -/
def canonLookup (s : Snapshot) (c : String) : Option CollectionStructure :=
  (s.collections.lookup c).map canonCollection

/-- `serializeSnapshot` in terms of `canonCollection`. -/
theorem serializeSnapshot_eq (s : Snapshot) :
    serializeSnapshot s =
      (s.version, (sortPairsByKey s.collections).map (fun p => (p.1, canonCollection p.2))) :=
  rfl

/-- The keys of a value-mapped association list. -/
theorem map_fst_map_value {α β : Type} (f : α → β) (l : List (String × α)) :
    ((l.map (fun p => (p.1, f p.2))).map Prod.fst) = l.map Prod.fst := by
  induction l with
  | nil => rfl
  | cons p t ih => simp [ih]

/-- The serialized collection list of a snapshot. -/
def serialColl (s : Snapshot) : List (String × CollectionStructure) :=
  (sortPairsByKey s.collections).map (fun p => (p.1, canonCollection p.2))

/-- Lookup in the serialized collection list is `canonLookup`, provided
the snapshot's collection names are distinct. -/
theorem serialColl_lookup (s : Snapshot) (hnd : (s.collections.map Prod.fst).Nodup)
    (c : String) : (serialColl s).lookup c = canonLookup s c := by
  unfold serialColl canonLookup
  rw [lookup_map_value]
  rw [perm_lookup_eq (sortPairsByKey_perm s.collections) (sortPairsByKey_keys_nodup hnd) c]

/-- Index on field `a` used by the C8 counterexample. -/
def indexOnA : IndexDefinition := { fields := [{ field := "a", direction := 1 }] }

/-- Index on field `b` used by the C8 counterexample. -/
def indexOnB : IndexDefinition := { fields := [{ field := "b", direction := 1 }] }

/-- C8 counterexample snapshot: one collection with indexes `[a, b]`. -/
def snapshotIndexesAB : Snapshot :=
  { version := 1, hash := ""
    collections := [("c", { fields := [], indexes := some [indexOnA, indexOnB] })] }

/-- C8 counterexample snapshot: the same content with the index list in
the other order. -/
def snapshotIndexesBA : Snapshot :=
  { version := 1, hash := ""
    collections := [("c", { fields := [], indexes := some [indexOnB, indexOnA] })] }

/-- C8, counterexample.  Two snapshots with the same collections, the
same fields and the same SET of indexes — the two index lists are
permutations of each other — hash differently, because
`serializeSnapshot` (src/src/core/snapshot.ts lines 378-409) sorts
collections and fields but serializes each index list in stored order. -/
theorem C8_index_order_counterexample :
    List.Perm [indexOnA, indexOnB] [indexOnB, indexOnA]
    ∧ generateSnapshotHash snapshotIndexesAB ≠ generateSnapshotHash snapshotIndexesBA := by
  exact ⟨List.Perm.swap _ _ _, by decide⟩

/-- C8, amended.  First part: for snapshots with distinct collection
names, two hashes are equal exactly when the versions agree and every
collection name maps to the same canonical content — same fields up to
insertion order and the same index list in the same order; this gives
both insertion-order invariance for collections and the guarantee that
any single field or index change (which changes some `canonLookup`)
changes the hash.  Second part: field insertion order is irrelevant to
the canonical content. -/
theorem C8_hash_characterization :
    (∀ (s1 s2 : Snapshot),
      (s1.collections.map Prod.fst).Nodup →
      (s2.collections.map Prod.fst).Nodup →
      (generateSnapshotHash s1 = generateSnapshotHash s2 ↔
        (s1.version = s2.version ∧ ∀ c, canonLookup s1 c = canonLookup s2 c)))
    ∧ (∀ (l1 l2 : List (String × FieldDefinition)), List.Perm l1 l2 →
        (l1.map Prod.fst).Nodup → canonCollection { fields := l1 } = canonCollection { fields := l2 }) := by
  constructor
  · intro s1 s2 hnd1 hnd2
    constructor
    · intro h
      have h' : (s1.version, serialColl s1) = (s2.version, serialColl s2) := h
      have hv : s1.version = s2.version := congrArg Prod.fst h'
      have hl : serialColl s1 = serialColl s2 := congrArg Prod.snd h'
      refine ⟨hv, fun c => ?_⟩
      rw [← serialColl_lookup s1 hnd1 c, ← serialColl_lookup s2 hnd2 c, hl]
    · rintro ⟨hv, hc⟩
      show (s1.version, serialColl s1) = (s2.version, serialColl s2)
      have hsorted : ∀ (s : Snapshot),
          List.Sorted (fun a b => a.1.data ≤ b.1.data) (serialColl s) := by
        intro s
        refine List.Pairwise.map _ ?_ (sortPairsByKey_sorted s.collections)
        intro a b hab
        exact hab
      have hkeys : ∀ (s : Snapshot), (s.collections.map Prod.fst).Nodup →
          ((serialColl s).map Prod.fst).Nodup := by
        intro s hnd
        rw [serialColl, map_fst_map_value]
        exact sortPairsByKey_keys_nodup hnd
      have hl : serialColl s1 = serialColl s2 := by
        refine sorted_nodup_lookup_ext _ _ (hsorted s1) (hsorted s2)
          (hkeys s1 hnd1) (hkeys s2 hnd2) ?_
        intro c
        rw [serialColl_lookup s1 hnd1 c, serialColl_lookup s2 hnd2 c]
        exact hc c
      rw [hv, hl]
  · intro l1 l2 hp hnd
    show ({ fields := sortPairsByKey l1 } : CollectionStructure) = { fields := sortPairsByKey l2 }
    rw [sortPairsByKey_eq_of_perm hp hnd]

/-- Concrete collection contents for the C8 witness. -/
def collContentA : CollectionStructure :=
  { fields := [("x", strFieldDef)], indexes := some [indexOnA] }

/-- Concrete collection contents for the C8 witness. -/
def collContentB : CollectionStructure :=
  { fields := [("y", ageFieldDef), ("z", strFieldDef)], indexes := some [] }

/-- Two-collection snapshot, insertion order `a` then `b`. -/
def snapshotOrderAB : Snapshot :=
  { version := 3, hash := "", collections := [("a", collContentA), ("b", collContentB)] }

/-- The same snapshot content inserted in the other order, with the
fields of `b` also reordered. -/
def snapshotOrderBA : Snapshot :=
  { version := 3, hash := ""
    collections := [("b", { collContentB with
      fields := [("z", strFieldDef), ("y", ageFieldDef)] }), ("a", collContentA)] }

/-- C8 witness: the characterization applied at a concrete pair of
reordered snapshots whose hashes are equal. -/
theorem C8_hash_characterization_witness :
    snapshotOrderAB.version = snapshotOrderBA.version
    ∧ canonLookup snapshotOrderAB "b" = canonLookup snapshotOrderBA "b" := by
  have h := (C8_hash_characterization.1 snapshotOrderAB snapshotOrderBA
    (by decide) (by decide)).mp (by decide)
  exact ⟨h.1, h.2 "b"⟩

/-- On a key-distinct association list, membership determines lookup. -/
theorem lookup_eq_of_mem_nodup {α : Type} {l : List (String × α)} {k : String} {v : α}
    (hnd : (l.map Prod.fst).Nodup) (hm : (k, v) ∈ l) : l.lookup k = some v := by
  induction l with
  | nil => cases hm
  | cons p t ih =>
    rw [List.map_cons] at hnd
    have hnd' := List.nodup_cons.mp hnd
    rcases List.mem_cons.mp hm with h | h
    · rw [← h, List.lookup, beq_self_eq_true]
    · have hk : k ≠ p.1 := by
        intro hcon
        exact hnd'.1 (hcon ▸ List.mem_map.mpr ⟨(k, v), h, rfl⟩)
      rw [List.lookup, beq_false_of_ne hk]
      exact ih hnd'.2 h

/-- Session injection never changes the underlying structural command. -/
theorem injectSessionIntoCommand_base (c : Cmd) : (injectSessionIntoCommand c).base = c := by
  cases c <;> simp only [injectSessionIntoCommand] <;> (try split) <;> rfl

/-- Everything that can be an `up` entry of `diffFieldsRefined`. -/
theorem diffFieldsRefined_up_mem {collectionName : String}
    {dF cF : List (String × FieldDefinition)} {b : Bool} {x : MigrationCommand Cmd}
    (hx : x ∈ (diffFieldsRefined collectionName dF cF b).up) :
    (∃ f d, (f, d) ∈ cF ∧ x = (newFieldMigration collectionName f d).up)
    ∨ (∃ f d, (f, d) ∈ dF ∧ x = (removedFieldMigration collectionName f).up)
    ∨ (∃ f df cf e, (f, df) ∈ dF ∧ (f, cf) ∈ cF
        ∧ modifiedFieldMigration collectionName f df cf = some e ∧ x = e.up) := by
  cases b with
  | true => simp [diffFieldsRefined] at hx
  | false =>
    simp only [diffFieldsRefined, if_neg Bool.false_ne_true, List.mem_append] at hx
    rcases hx with (hx | hx) | hx
    · rcases List.mem_map.mp hx with ⟨e, he, rfl⟩
      rcases List.mem_map.mp he with ⟨p, hp, rfl⟩
      have hp' := List.mem_of_mem_filter (List.mem_of_mem_filter hp)
      exact Or.inl ⟨p.1, p.2, hp', rfl⟩
    · rcases List.mem_map.mp hx with ⟨e, he, rfl⟩
      rcases List.mem_map.mp he with ⟨p, hp, rfl⟩
      have hp' := List.mem_of_mem_filter (List.mem_of_mem_filter hp)
      exact Or.inr (Or.inl ⟨p.1, p.2, hp', rfl⟩)
    · rcases List.mem_map.mp hx with ⟨e, he, rfl⟩
      rcases List.mem_filterMap.mp he with ⟨p, hp, hpe⟩
      rcases hdb : (dF.filter (fun p => !MONGOOSE_MANAGED_FIELDS.contains p.1)).lookup p.1 with
        _ | df
      · rw [hdb] at hpe
        cases hpe
      · rw [hdb] at hpe
        refine Or.inr (Or.inr ⟨p.1, df, p.2, e, ?_, List.mem_of_mem_filter hp, hpe, rfl⟩)
        exact List.mem_of_mem_filter (lookup_some_mem hdb)

/-- Everything that can be a `down` entry of `diffFieldsRefined`. -/
theorem diffFieldsRefined_down_mem {collectionName : String}
    {dF cF : List (String × FieldDefinition)} {b : Bool} {x : MigrationCommand Cmd}
    (hx : x ∈ (diffFieldsRefined collectionName dF cF b).down) :
    (∃ f d, (f, d) ∈ cF ∧ x = (newFieldMigration collectionName f d).down)
    ∨ (∃ f d, (f, d) ∈ dF ∧ x = (removedFieldMigration collectionName f).down)
    ∨ (∃ f df cf e, (f, df) ∈ dF ∧ (f, cf) ∈ cF
        ∧ modifiedFieldMigration collectionName f df cf = some e ∧ x = e.down) := by
  cases b with
  | true => simp [diffFieldsRefined] at hx
  | false =>
    simp only [diffFieldsRefined, if_neg Bool.false_ne_true, List.mem_append] at hx
    rcases hx with (hx | hx) | hx
    · rcases List.mem_map.mp hx with ⟨e, he, rfl⟩
      rcases List.mem_map.mp he with ⟨p, hp, rfl⟩
      have hp' := List.mem_of_mem_filter (List.mem_of_mem_filter hp)
      exact Or.inl ⟨p.1, p.2, hp', rfl⟩
    · rcases List.mem_map.mp hx with ⟨e, he, rfl⟩
      rcases List.mem_map.mp he with ⟨p, hp, rfl⟩
      have hp' := List.mem_of_mem_filter (List.mem_of_mem_filter hp)
      exact Or.inr (Or.inl ⟨p.1, p.2, hp', rfl⟩)
    · rcases List.mem_map.mp hx with ⟨e, he, rfl⟩
      rcases List.mem_filterMap.mp he with ⟨p, hp, hpe⟩
      rcases hdb : (dF.filter (fun p => !MONGOOSE_MANAGED_FIELDS.contains p.1)).lookup p.1 with
        _ | df
      · rw [hdb] at hpe
        cases hpe
      · rw [hdb] at hpe
        refine Or.inr (Or.inr ⟨p.1, df, p.2, e, ?_, List.mem_of_mem_filter hp, hpe, rfl⟩)
        exact List.mem_of_mem_filter (lookup_some_mem hdb)

/-- Everything that can be an `up` entry of `diffIndexes`. -/
theorem diffIndexes_up_mem {collectionName : String} {fI tI : List IndexDefinition}
    {x : MigrationCommand Cmd} (hx : x ∈ (diffIndexes collectionName fI tI).up) :
    (∃ i, x = (addedIndexEntry collectionName i).up)
    ∨ (∃ i, x = (removedIndexEntry collectionName i).up) := by
  simp only [diffIndexes, List.mem_append] at hx
  rcases hx with hx | hx
  · rcases List.mem_map.mp hx with ⟨e, he, rfl⟩
    rcases List.mem_map.mp he with ⟨p, _, rfl⟩
    exact Or.inl ⟨p.2, rfl⟩
  · rcases List.mem_map.mp hx with ⟨e, he, rfl⟩
    rcases List.mem_map.mp he with ⟨p, _, rfl⟩
    exact Or.inr ⟨p.2, rfl⟩

/-- Everything that can be a `down` entry of `diffIndexes`. -/
theorem diffIndexes_down_mem {collectionName : String} {fI tI : List IndexDefinition}
    {x : MigrationCommand Cmd} (hx : x ∈ (diffIndexes collectionName fI tI).down) :
    (∃ i, x = (addedIndexEntry collectionName i).down)
    ∨ (∃ i, x = (removedIndexEntry collectionName i).down) := by
  simp only [diffIndexes, List.mem_append] at hx
  rcases hx with hx | hx
  · rcases List.mem_map.mp hx with ⟨e, he, rfl⟩
    rcases List.mem_map.mp he with ⟨p, _, rfl⟩
    exact Or.inl ⟨p.2, rfl⟩
  · rcases List.mem_map.mp hx with ⟨e, he, rfl⟩
    rcases List.mem_map.mp he with ⟨p, _, rfl⟩
    exact Or.inr ⟨p.2, rfl⟩

/-- Everything that can be an `up` entry of `diffCollections`, with the
name-set conditions of the two loops. -/
theorem diffCollections_up_mem {F T : List (String × NormalizedCollection)}
    {x : MigrationCommand Cmd} (hx : x ∈ (diffCollections F T).up) :
    (∃ nm, nm ∈ T.map Prod.fst ∧ nm ∉ F.map Prod.fst ∧
      x = { command := .createCollection nm
            description := "Create collection '" ++ nm ++ "'"
            safetyLevel := .safe })
    ∨ (∃ nm, nm ∈ F.map Prod.fst ∧ nm ∉ T.map Prod.fst ∧
      x = { command := .dropCollection nm
            description := "Drop collection '" ++ nm ++ "'"
            safetyLevel := .dangerous }) := by
  simp only [diffCollections, List.mem_append] at hx
  rcases hx with hx | hx
  · rcases List.mem_map.mp hx with ⟨nm, hnm, rfl⟩
    rcases List.mem_filter.mp hnm with ⟨h1, h2⟩
    exact Or.inl ⟨nm, h1, by simpa using h2, rfl⟩
  · rcases List.mem_map.mp hx with ⟨nm, hnm, rfl⟩
    rcases List.mem_filter.mp hnm with ⟨h1, h2⟩
    exact Or.inr ⟨nm, h1, by simpa using h2, rfl⟩

/-- Everything that can be a `down` entry of `diffCollections`. -/
theorem diffCollections_down_mem {F T : List (String × NormalizedCollection)}
    {x : MigrationCommand Cmd} (hx : x ∈ (diffCollections F T).down) :
    (∃ nm, nm ∈ T.map Prod.fst ∧ nm ∉ F.map Prod.fst ∧
      x = { command := .dropCollection nm
            description := "Drop collection '" ++ nm ++ "'"
            safetyLevel := .dangerous })
    ∨ (∃ nm, nm ∈ F.map Prod.fst ∧ nm ∉ T.map Prod.fst ∧
      x = { command := .createCollection nm
            description := "Recreate collection '" ++ nm ++ "'"
            safetyLevel := .safe }) := by
  simp only [diffCollections, List.mem_append] at hx
  rcases hx with hx | hx
  · rcases List.mem_map.mp hx with ⟨nm, hnm, rfl⟩
    rcases List.mem_filter.mp hnm with ⟨h1, h2⟩
    exact Or.inl ⟨nm, h1, by simpa using h2, rfl⟩
  · rcases List.mem_map.mp hx with ⟨nm, hnm, rfl⟩
    rcases List.mem_filter.mp hnm with ⟨h1, h2⟩
    exact Or.inr ⟨nm, h1, by simpa using h2, rfl⟩

/-- A per-collection chunk entry is a field-diff entry or an index-diff
entry. -/
theorem collectionFieldIndexDiff_up_mem {n : String} {a b : NormalizedCollection}
    {x : MigrationCommand Cmd} (hx : x ∈ (collectionFieldIndexDiff n a b).up) :
    x ∈ (diffFieldsRefined n a.fields b.fields (a.isEmpty.getD false)).up
    ∨ x ∈ (diffIndexes n a.indexes b.indexes).up := by
  simp only [collectionFieldIndexDiff, List.mem_append] at hx
  rcases hx with hx | hx
  · split at hx
    · exact Or.inl hx
    · simp at hx
  · split at hx
    · exact Or.inr hx
    · simp at hx

/-- A per-collection chunk `down` entry is a field-diff entry or an
index-diff entry. -/
theorem collectionFieldIndexDiff_down_mem {n : String} {a b : NormalizedCollection}
    {x : MigrationCommand Cmd} (hx : x ∈ (collectionFieldIndexDiff n a b).down) :
    x ∈ (diffFieldsRefined n a.fields b.fields (a.isEmpty.getD false)).down
    ∨ x ∈ (diffIndexes n a.indexes b.indexes).down := by
  simp only [collectionFieldIndexDiff, List.mem_append] at hx
  rcases hx with hx | hx
  · split at hx
    · exact Or.inl hx
    · simp at hx
  · split at hx
    · exact Or.inr hx
    · simp at hx

/-- Every final `up` command of `diffSnapshots` is the injection of a
collection-diff entry or of a per-collection chunk entry for a collection
present in both snapshots. -/
theorem diffSnapshots_up_mem {db code : Snapshot} {x : MigrationCommand InjCmd}
    (hx : x ∈ (diffSnapshots db code).up) :
    ∃ y, x = injectMC y ∧
      (y ∈ (diffCollections (normalizeSnapshot db).collections
          (normalizeSnapshot code).collections).up
        ∨ ∃ n dbc cc, (n, cc) ∈ (normalizeSnapshot code).collections ∧
            (normalizeSnapshot db).collections.lookup n = some dbc ∧
            y ∈ (collectionFieldIndexDiff n dbc cc).up) := by
  simp only [diffSnapshots, List.mem_map, List.mem_append, List.mem_flatMap] at hx
  rcases hx with ⟨y, hy, rfl⟩
  refine ⟨y, rfl, ?_⟩
  rcases hy with hy | ⟨chunk, ⟨p, hp, hcp⟩, hyc⟩
  · exact Or.inl hy
  · rcases hdb : (normalizeSnapshot db).collections.lookup p.1 with _ | dbc
    · rw [hdb] at hcp
      rw [← hcp] at hyc
      simp at hyc
    · rw [hdb] at hcp
      rw [← hcp] at hyc
      exact Or.inr ⟨p.1, dbc, p.2, hp, hdb, hyc⟩

/-- Every final `down` command of `diffSnapshots` is the injection of a
collection-diff entry or of a per-collection chunk entry for a collection
present in both snapshots. -/
theorem diffSnapshots_down_mem {db code : Snapshot} {x : MigrationCommand InjCmd}
    (hx : x ∈ (diffSnapshots db code).down) :
    ∃ y, x = injectMC y ∧
      (y ∈ (diffCollections (normalizeSnapshot db).collections
          (normalizeSnapshot code).collections).down
        ∨ ∃ n dbc cc, (n, cc) ∈ (normalizeSnapshot code).collections ∧
            (normalizeSnapshot db).collections.lookup n = some dbc ∧
            y ∈ (collectionFieldIndexDiff n dbc cc).down) := by
  simp only [diffSnapshots, List.mem_map, List.mem_append, List.mem_flatMap] at hx
  rcases hx with ⟨y, hy, rfl⟩
  refine ⟨y, rfl, ?_⟩
  rcases hy with hy | ⟨chunk, ⟨p, hp, hcp⟩, hyc⟩
  · exact Or.inl hy
  · rcases hdb : (normalizeSnapshot db).collections.lookup p.1 with _ | dbc
    · rw [hdb] at hcp
      rw [← hcp] at hyc
      simp at hyc
    · rw [hdb] at hcp
      rw [← hcp] at hyc
      exact Or.inr ⟨p.1, dbc, p.2, hp, hdb, hyc⟩

/-- Shape of a new-field up command: always a `$set` of the field on the
collection, always safe. -/
theorem newFieldMigration_up_shape (n f : String) (d : FieldDefinition) :
    ∃ v, (newFieldMigration n f d).up.command = Cmd.setField n f v
      ∧ (newFieldMigration n f d).up.safetyLevel = SafetyLevel.safe :=
  ⟨_, rfl, rfl⟩

/-- Shape of a new-field down command. -/
theorem newFieldMigration_down_shape (n f : String) (d : FieldDefinition) :
    (newFieldMigration n f d).down =
      { command := Cmd.unsetField n f
        description := "Remove field '" ++ f ++ "' from collection '" ++ n ++ "'"
        safetyLevel := SafetyLevel.warning } :=
  rfl

/-- Shape of a removed-field entry. -/
theorem removedFieldMigration_shape (n f : String) :
    (removedFieldMigration n f).up.command = Cmd.unsetField n f
    ∧ (removedFieldMigration n f).up.safetyLevel = SafetyLevel.warning
    ∧ (removedFieldMigration n f).down.command = Cmd.setField n f MValue.vnull
    ∧ (removedFieldMigration n f).down.safetyLevel = SafetyLevel.safe :=
  ⟨rfl, rfl, rfl, rfl⟩

/-- Shape and conditions of a produced modified-field entry: it exists
only for a significant change, its up command is the review comment and
its down command the revert comment, both warnings. -/
theorem modifiedFieldMigration_some {n f : String} {df cf : FieldDefinition}
    {e : FieldDiffEntry} (h : modifiedFieldMigration n f df cf = some e) :
    (compareFields df cf f).changed = true
    ∧ (compareFields df cf f).significantChange = true
    ∧ e.up.command = Cmd.reviewTypeChange f df.type cf.type
    ∧ e.up.safetyLevel = SafetyLevel.warning
    ∧ e.down.command = Cmd.revertTypeChange f cf.type df.type
    ∧ e.down.safetyLevel = SafetyLevel.warning := by
  unfold modifiedFieldMigration at h
  dsimp only at h
  split at h
  · rename_i hcond
    rcases hcond with ⟨h1, h2⟩
    cases h
    exact ⟨h1, h2, rfl, rfl, rfl, rfl⟩
  · cases h

/-- Shape of an added-index entry. -/
theorem addedIndexEntry_shape (n : String) (i : IndexDefinition) :
    (addedIndexEntry n i).up.command = Cmd.createIndex n i
    ∧ (addedIndexEntry n i).up.safetyLevel = SafetyLevel.safe
    ∧ (addedIndexEntry n i).down.command = Cmd.dropIndex n (generateIndexName i)
    ∧ (addedIndexEntry n i).down.safetyLevel = SafetyLevel.warning :=
  ⟨rfl, rfl, rfl, rfl⟩

/-- Shape of a removed-index entry. -/
theorem removedIndexEntry_shape (n : String) (i : IndexDefinition) :
    (removedIndexEntry n i).up.command = Cmd.dropIndex n (generateIndexName i)
    ∧ (removedIndexEntry n i).up.safetyLevel = SafetyLevel.warning
    ∧ (removedIndexEntry n i).down.command = Cmd.createIndex n i
    ∧ (removedIndexEntry n i).down.safetyLevel = SafetyLevel.safe :=
  ⟨rfl, rfl, rfl, rfl⟩

/-- `injectMC` keeps the underlying command, the description and the
safety level. -/
theorem injectMC_fields (m : MigrationCommand Cmd) :
    (injectMC m).command.base = m.command
    ∧ (injectMC m).description = m.description
    ∧ (injectMC m).safetyLevel = m.safetyLevel :=
  ⟨injectSessionIntoCommand_base m.command, rfl, rfl⟩

/-- The collection a command addresses, if any (the type-change review
comments name no collection). -/
def Cmd.collRef : Cmd → Option String
  | .createCollection coll => some coll
  | .dropCollection coll => some coll
  | .setField coll _ _ => some coll
  | .unsetField coll _ => some coll
  | .reviewTypeChange _ _ _ => none
  | .revertTypeChange _ _ _ => none
  | .createIndex coll _ => some coll
  | .dropIndex coll _ => some coll
  | .renameField coll _ _ => some coll

/-- The command-constructor/safety-level combinations that `up` entries
of the diff engine can carry. -/
def upPolicy (k : MigrationCommand Cmd) : Bool :=
  match k.command, k.safetyLevel with
  | .createCollection _, .safe => true
  | .dropCollection _, .dangerous => true
  | .setField _ _ _, .safe => true
  | .unsetField _ _, .warning => true
  | .reviewTypeChange _ _ _, .warning => true
  | .createIndex _ _, .safe => true
  | .dropIndex _ _, .warning => true
  | _, _ => false

/-- The command-constructor/safety-level combinations that `down` entries
of the diff engine can carry. -/
def downPolicy (k : MigrationCommand Cmd) : Bool :=
  match k.command, k.safetyLevel with
  | .dropCollection _, .dangerous => true
  | .createCollection _, .safe => true
  | .unsetField _ _, .warning => true
  | .setField _ _ _, .safe => true
  | .revertTypeChange _ _ _, .warning => true
  | .dropIndex _ _, .warning => true
  | .createIndex _ _, .safe => true
  | _, _ => false

/-- Every pre-injection `up` entry of `diffSnapshots` obeys `upPolicy`. -/
theorem up_entries_policy {db code : Snapshot} {y : MigrationCommand Cmd}
    (hy : y ∈ (diffCollections (normalizeSnapshot db).collections
        (normalizeSnapshot code).collections).up
      ∨ ∃ n dbc cc, (n, cc) ∈ (normalizeSnapshot code).collections ∧
          (normalizeSnapshot db).collections.lookup n = some dbc ∧
          y ∈ (collectionFieldIndexDiff n dbc cc).up) :
    upPolicy y = true := by
  rcases hy with hy | ⟨n, dbc, cc, _, _, hyc⟩
  · rcases diffCollections_up_mem hy with ⟨nm, _, _, rfl⟩ | ⟨nm, _, _, rfl⟩ <;> rfl
  · rcases collectionFieldIndexDiff_up_mem hyc with hf | hi
    · rcases diffFieldsRefined_up_mem hf with
        ⟨f, d, _, rfl⟩ | ⟨f, d, _, rfl⟩ | ⟨f, df, cf, e, _, _, hsome, rfl⟩
      · obtain ⟨v, hcmd, hsafe⟩ := newFieldMigration_up_shape n f d
        simp [upPolicy, hcmd, hsafe]
      · obtain ⟨hcmd, hsafe, _, _⟩ := removedFieldMigration_shape n f
        simp [upPolicy, hcmd, hsafe]
      · obtain ⟨_, _, hcmd, hsafe, _, _⟩ := modifiedFieldMigration_some hsome
        simp [upPolicy, hcmd, hsafe]
    · rcases diffIndexes_up_mem hi with ⟨i, rfl⟩ | ⟨i, rfl⟩
      · obtain ⟨hcmd, hsafe, _, _⟩ := addedIndexEntry_shape n i
        simp [upPolicy, hcmd, hsafe]
      · obtain ⟨hcmd, hsafe, _, _⟩ := removedIndexEntry_shape n i
        simp [upPolicy, hcmd, hsafe]

/-- Every pre-injection `down` entry of `diffSnapshots` obeys
`downPolicy`. -/
theorem down_entries_policy {db code : Snapshot} {y : MigrationCommand Cmd}
    (hy : y ∈ (diffCollections (normalizeSnapshot db).collections
        (normalizeSnapshot code).collections).down
      ∨ ∃ n dbc cc, (n, cc) ∈ (normalizeSnapshot code).collections ∧
          (normalizeSnapshot db).collections.lookup n = some dbc ∧
          y ∈ (collectionFieldIndexDiff n dbc cc).down) :
    downPolicy y = true := by
  rcases hy with hy | ⟨n, dbc, cc, _, _, hyc⟩
  · rcases diffCollections_down_mem hy with ⟨nm, _, _, rfl⟩ | ⟨nm, _, _, rfl⟩ <;> rfl
  · rcases collectionFieldIndexDiff_down_mem hyc with hf | hi
    · rcases diffFieldsRefined_down_mem hf with
        ⟨f, d, _, rfl⟩ | ⟨f, d, _, rfl⟩ | ⟨f, df, cf, e, _, _, hsome, rfl⟩
      · rw [newFieldMigration_down_shape]
        rfl
      · obtain ⟨_, _, hcmd, hsafe⟩ := removedFieldMigration_shape n f
        simp [downPolicy, hcmd, hsafe]
      · obtain ⟨_, _, _, _, hcmd, hsafe⟩ := modifiedFieldMigration_some hsome
        simp [downPolicy, hcmd, hsafe]
    · rcases diffIndexes_down_mem hi with ⟨i, rfl⟩ | ⟨i, rfl⟩
      · obtain ⟨_, _, hcmd, hsafe⟩ := addedIndexEntry_shape n i
        simp [downPolicy, hcmd, hsafe]
      · obtain ⟨_, _, hcmd, hsafe⟩ := removedIndexEntry_shape n i
        simp [downPolicy, hcmd, hsafe]

/-- Consequences of `upPolicy`: the safety level each command kind
carries, and the absence of rename commands. -/
theorem upPolicy_facts {y : MigrationCommand Cmd} (h : upPolicy y = true) :
    (∀ co f v, y.command = Cmd.setField co f v → y.safetyLevel = SafetyLevel.safe)
    ∧ (∀ co i, y.command = Cmd.dropIndex co i → y.safetyLevel = SafetyLevel.warning)
    ∧ (∀ co, y.command = Cmd.dropCollection co → y.safetyLevel = SafetyLevel.dangerous)
    ∧ y.command.isRename = false := by
  obtain ⟨cmd, desc, sl⟩ := y
  revert h
  unfold upPolicy
  cases cmd <;> cases sl <;> simp [Cmd.isRename]

/-- Consequences of `downPolicy`. -/
theorem downPolicy_facts {y : MigrationCommand Cmd} (h : downPolicy y = true) :
    (∀ co, y.command = Cmd.dropCollection co → y.safetyLevel = SafetyLevel.dangerous)
    ∧ y.command.isRename = false := by
  obtain ⟨cmd, desc, sl⟩ := y
  revert h
  unfold downPolicy
  cases cmd <;> cases sl <;> simp [Cmd.isRename]

/-- C1, amended.  `diffSnapshots` performs no rename inference: no output
command of any diff is ever the `$rename` command (first conjunct, over
all snapshot pairs).  On the scenario itself it emits one separate
add-field pair for `userAge` and one remove-field pair for `age` (second
and third conjuncts) even though the five-signal similarity of the two
definitions is 1 > 0.7 (last conjunct). -/
theorem C1_diffSnapshots_never_renames :
    (∀ (dbSnapshot codeSnapshot : Snapshot),
      ((diffSnapshots dbSnapshot codeSnapshot).up
        ++ (diffSnapshots dbSnapshot codeSnapshot).down).filter
        (fun k => k.command.base.isRename) = [])
    ∧ (diffSnapshots dbSnapshotC1 codeSnapshotC1).up.map (fun k => k.command) =
        [.sessioned (.setField "users" "userAge" .vnull), .sessioned (.unsetField "users" "age")]
    ∧ (diffSnapshots dbSnapshotC1 codeSnapshotC1).down.map (fun k => k.command) =
        [.sessioned (.unsetField "users" "userAge"), .sessioned (.setField "users" "age" .vnull)]
    ∧ renameConfidence ageFieldDef ageFieldDef = 1 := by
  refine ⟨?_, by decide, by decide, ?_⟩
  · intro db code
    rw [List.filter_eq_nil_iff]
    intro k hk
    have hshape : ∃ y, k = injectMC y ∧ upPolicy y = true ∨ k = injectMC y ∧ downPolicy y = true := by
      rcases List.mem_append.mp hk with hk | hk
      · obtain ⟨y, rfl, hy⟩ := diffSnapshots_up_mem hk
        exact ⟨y, Or.inl ⟨rfl, up_entries_policy hy⟩⟩
      · obtain ⟨y, rfl, hy⟩ := diffSnapshots_down_mem hk
        exact ⟨y, Or.inr ⟨rfl, down_entries_policy hy⟩⟩
    rcases hshape with ⟨y, ⟨rfl, hpol⟩ | ⟨rfl, hpol⟩⟩
    · rw [show (injectMC y).command.base = y.command from (injectMC_fields y).1]
      simp only [(upPolicy_facts hpol).2.2.2, Bool.false_eq_true, not_false_eq_true]
    · rw [show (injectMC y).command.base = y.command from (injectMC_fields y).1]
      simp only [(downPolicy_facts hpol).2, Bool.false_eq_true, not_false_eq_true]
  · norm_num [renameConfidence, stringifyOptMValue, stringifyOptEnum, ageFieldDef]

/-- C7.  In every diff result: `$set` up commands (field additions) are
safe; index-drop up commands are warnings; collection-drop commands, in
`up` or `down`, are dangerous; and after session injection every
collection-drop and index-drop command is an execute-manually comment —
never a session-wrapped executable command. -/
theorem C7_safety_classification (dbSnapshot codeSnapshot : Snapshot) :
    (∀ k ∈ (diffSnapshots dbSnapshot codeSnapshot).up,
      (∀ co f v, k.command.base = Cmd.setField co f v → k.safetyLevel = SafetyLevel.safe)
      ∧ (∀ co i, k.command.base = Cmd.dropIndex co i → k.safetyLevel = SafetyLevel.warning))
    ∧ (∀ k ∈ (diffSnapshots dbSnapshot codeSnapshot).up
          ++ (diffSnapshots dbSnapshot codeSnapshot).down,
        (∀ co, k.command.base = Cmd.dropCollection co → k.safetyLevel = SafetyLevel.dangerous)
        ∧ (∀ co, k.command.base = Cmd.dropCollection co →
            k.command = InjCmd.manualComment (Cmd.dropCollection co))
        ∧ (∀ co i, k.command.base = Cmd.dropIndex co i →
            k.command = InjCmd.manualComment (Cmd.dropIndex co i))) := by
  constructor
  · intro k hk
    obtain ⟨y, rfl, hy⟩ := diffSnapshots_up_mem hk
    have hpol := up_entries_policy hy
    constructor
    · intro co f v hcv
      rw [(injectMC_fields y).1] at hcv
      exact (upPolicy_facts hpol).1 co f v hcv
    · intro co i hcv
      rw [(injectMC_fields y).1] at hcv
      exact (upPolicy_facts hpol).2.1 co i hcv
  · intro k hk
    rcases List.mem_append.mp hk with hk | hk
    · obtain ⟨y, rfl, hy⟩ := diffSnapshots_up_mem hk
      have hpol := up_entries_policy hy
      refine ⟨?_, ?_, ?_⟩
      · intro co hco
        rw [(injectMC_fields y).1] at hco
        exact (upPolicy_facts hpol).2.2.1 co hco
      · intro co hco
        rw [(injectMC_fields y).1] at hco
        show injectSessionIntoCommand y.command = _
        rw [hco]
        rfl
      · intro co i hco
        rw [(injectMC_fields y).1] at hco
        show injectSessionIntoCommand y.command = _
        rw [hco]
        rfl
    · obtain ⟨y, rfl, hy⟩ := diffSnapshots_down_mem hk
      have hpol := down_entries_policy hy
      refine ⟨?_, ?_, ?_⟩
      · intro co hco
        rw [(injectMC_fields y).1] at hco
        exact (downPolicy_facts hpol).1 co hco
      · intro co hco
        rw [(injectMC_fields y).1] at hco
        show injectSessionIntoCommand y.command = _
        rw [hco]
        rfl
      · intro co i hco
        rw [(injectMC_fields y).1] at hco
        show injectSessionIntoCommand y.command = _
        rw [hco]
        rfl

/-- Observed snapshot for the C7 witness: a collection `old` to drop and
a `users` collection with a stale field and a stale index. -/
def dbSnapshotC7 : Snapshot :=
  { version := 1, hash := ""
    collections := [("old", { fields := [], indexes := some [] }),
      ("users", { fields := [("age", ageFieldDef)], indexes := some [indexOnA] })] }

/-- Declared snapshot for the C7 witness. -/
def codeSnapshotC7 : Snapshot :=
  { version := 1, hash := ""
    collections := [("users", { fields := [("name", strFieldDef)], indexes := some [] })] }

/-- The collection-drop command the C7 witness scenario produces. -/
def dropOldCommand : MigrationCommand InjCmd :=
  { command := InjCmd.manualComment (Cmd.dropCollection "old")
    description := "Drop collection 'old'"
    safetyLevel := SafetyLevel.dangerous }

/-- C7 witness: the classification applied to the concrete collection-drop
command of a concrete diff. -/
theorem C7_safety_classification_witness :
    dropOldCommand.safetyLevel = SafetyLevel.dangerous
    ∧ dropOldCommand.command = InjCmd.manualComment (Cmd.dropCollection "old") := by
  have h := (C7_safety_classification dbSnapshotC7 codeSnapshotC7).2 dropOldCommand
    (by decide)
  exact ⟨h.1 "old" (by decide), h.2.1 "old" (by decide)⟩

/-- `contains` is false for a non-member. -/
theorem contains_eq_false_of_not_mem {l : List String} {c : String} (h : c ∉ l) :
    l.contains c = false := by
  induction l with
  | nil => rfl
  | cons a t ih =>
    rw [List.mem_cons] at h
    push_neg at h
    rw [List.contains_cons, beq_false_of_ne h.1, ih h.2]
    rfl

/-- Filtering a BEq test for an absent element gives nothing. -/
theorem filter_beq_nil {l : List String} {c : String} (h : c ∉ l) :
    l.filter (fun nm => nm == c) = [] := by
  induction l with
  | nil => rfl
  | cons a t ih =>
    rw [List.mem_cons] at h
    push_neg at h
    rw [List.filter_cons, beq_false_of_ne (fun hac => h.1 hac.symm)]
    exact ih h.2

/-- On a duplicate-free list, filtering first by any predicate that holds
at `c` and then by equality with `c` leaves exactly `[c]`. -/
theorem nodup_filter_filter_beq {l : List String} {p : String → Bool} {c : String}
    (hnd : l.Nodup) (hc : c ∈ l) (hp : p c = true) :
    (l.filter p).filter (fun nm => nm == c) = [c] := by
  induction l with
  | nil => cases hc
  | cons a t ih =>
    rw [List.nodup_cons] at hnd
    rcases List.mem_cons.mp hc with rfl | hct
    · simp [List.filter_cons, hp,
        filter_beq_nil (fun hmem => hnd.1 (List.mem_of_mem_filter hmem))]
    · have hac : a ≠ c := fun h => hnd.1 (h ▸ hct)
      cases hpa : p a
      · simp [List.filter_cons, hpa, ih hnd.2 hct]
      · simp [List.filter_cons, hpa, beq_false_of_ne hac, ih hnd.2 hct]

/-- The collection names of a normalized snapshot. -/
theorem normalizeSnapshot_keys (s : Snapshot) :
    (normalizeSnapshot s).collections.map Prod.fst =
      (sortPairsByKey s.collections).map Prod.fst :=
  map_fst_map_value _ _

/-- Normalization permutes, and in particular preserves, the collection
name set. -/
theorem normalizeSnapshot_keys_perm (s : Snapshot) :
    List.Perm ((normalizeSnapshot s).collections.map Prod.fst)
      (s.collections.map Prod.fst) := by
  rw [normalizeSnapshot_keys]
  exact (sortPairsByKey_perm s.collections).map Prod.fst

/-- The collection a chunk `up` entry refers to is the chunk's own
collection, or none for a review comment. -/
theorem chunk_up_collRef {n : String} {a b : NormalizedCollection} {y : MigrationCommand Cmd}
    (hy : y ∈ (collectionFieldIndexDiff n a b).up) :
    y.command.collRef = some n ∨ y.command.collRef = none := by
  rcases collectionFieldIndexDiff_up_mem hy with hf | hi
  · rcases diffFieldsRefined_up_mem hf with
      ⟨f, d, _, rfl⟩ | ⟨f, _, _, rfl⟩ | ⟨f, df, cf, e, _, _, hsome, rfl⟩
    · obtain ⟨v, hcmd, _⟩ := newFieldMigration_up_shape n f d
      exact Or.inl (by rw [hcmd]; rfl)
    · exact Or.inl (by rw [(removedFieldMigration_shape n f).1]; rfl)
    · exact Or.inr (by rw [(modifiedFieldMigration_some hsome).2.2.1]; rfl)
  · rcases diffIndexes_up_mem hi with ⟨i, rfl⟩ | ⟨i, rfl⟩
    · exact Or.inl (by rw [(addedIndexEntry_shape n i).1]; rfl)
    · exact Or.inl (by rw [(removedIndexEntry_shape n i).1]; rfl)

/-- The collection a chunk `down` entry refers to is the chunk's own
collection, or none for a revert comment. -/
theorem chunk_down_collRef {n : String} {a b : NormalizedCollection} {y : MigrationCommand Cmd}
    (hy : y ∈ (collectionFieldIndexDiff n a b).down) :
    y.command.collRef = some n ∨ y.command.collRef = none := by
  rcases collectionFieldIndexDiff_down_mem hy with hf | hi
  · rcases diffFieldsRefined_down_mem hf with
      ⟨f, d, _, rfl⟩ | ⟨f, _, _, rfl⟩ | ⟨f, df, cf, e, _, _, hsome, rfl⟩
    · rw [newFieldMigration_down_shape]
      exact Or.inl rfl
    · exact Or.inl (by rw [(removedFieldMigration_shape n f).2.2.1]; rfl)
    · exact Or.inr (by rw [(modifiedFieldMigration_some hsome).2.2.2.2.1]; rfl)
  · rcases diffIndexes_down_mem hi with ⟨i, rfl⟩ | ⟨i, rfl⟩
    · exact Or.inl (by rw [(addedIndexEntry_shape n i).2.2.1]; rfl)
    · exact Or.inl (by rw [(removedIndexEntry_shape n i).2.2.1]; rfl)

/-- Filtering commutes with mapping. -/
theorem filter_map_comm {α β : Type} (f : α → β) (p : β → Bool) (l : List α) :
    (l.map f).filter p = (l.filter (fun a => p (f a))).map f := by
  induction l with
  | nil => rfl
  | cons a t ih => cases hpa : p (f a) <;> simp [List.filter_cons, hpa, ih]

/-- The final `up` list of `diffSnapshots`, unfolded. -/
theorem diffSnapshots_up_eq (db code : Snapshot) :
    (diffSnapshots db code).up =
      ((diffCollections (normalizeSnapshot db).collections
          (normalizeSnapshot code).collections).up
        ++ ((normalizeSnapshot code).collections.map
          (fun p : String × NormalizedCollection =>
            match (normalizeSnapshot db).collections.lookup p.1 with
            | some dbCollection => collectionFieldIndexDiff p.1 dbCollection p.2
            | none => ({ up := [], down := [], warnings := [] } : DiffChunk))).flatMap
          (fun ch => ch.up)).map injectMC :=
  rfl

/-- The final `down` list of `diffSnapshots`, unfolded. -/
theorem diffSnapshots_down_eq (db code : Snapshot) :
    (diffSnapshots db code).down =
      ((diffCollections (normalizeSnapshot db).collections
          (normalizeSnapshot code).collections).down
        ++ ((normalizeSnapshot code).collections.map
          (fun p : String × NormalizedCollection =>
            match (normalizeSnapshot db).collections.lookup p.1 with
            | some dbCollection => collectionFieldIndexDiff p.1 dbCollection p.2
            | none => ({ up := [], down := [], warnings := [] } : DiffChunk))).flatMap
          (fun ch => ch.down)).map injectMC :=
  rfl

/-- Filtering a mapped name list by a predicate that tests the name
against `c` keeps exactly the images of the names equal to `c`. -/
theorem mapped_filter_singleton (c : String) {mk : String → MigrationCommand InjCmd}
    {P : MigrationCommand InjCmd → Bool} (hP : ∀ n, P (mk n) = (n == c)) :
    ∀ (l : List String), (l.map mk).filter P = (l.filter (fun n => n == c)).map mk
  | [] => rfl
  | a :: t => by
    rw [List.map_cons, List.filter_cons, List.filter_cons, hP a]
    cases hac : a == c
    · simp only [Bool.false_eq_true, ite_false]
      exact mapped_filter_singleton c hP t
    · simp only [ite_true, List.map_cons]
      rw [mapped_filter_singleton c hP t]

/-- C9.  For a collection present only in the declared snapshot (with
declared collection names duplicate-free), the whole diff contains
exactly one up command referring to that collection — the session-wrapped
safe `createCollection` — and exactly one down command referring to it —
the dangerous collection drop, rewritten into an execute-manually
comment.  In particular no command for any of the new collection's
declared fields or indexes is emitted. -/
theorem C9_new_collection_commands (dbSnapshot codeSnapshot : Snapshot) (c : String)
    (hcCode : c ∈ codeSnapshot.collections.map Prod.fst)
    (hcDb : c ∉ dbSnapshot.collections.map Prod.fst)
    (hnd : (codeSnapshot.collections.map Prod.fst).Nodup) :
    (diffSnapshots dbSnapshot codeSnapshot).up.filter
        (fun k => k.command.base.collRef == some c) =
      [{ command := InjCmd.sessioned (Cmd.createCollection c)
         description := "Create collection '" ++ c ++ "'"
         safetyLevel := SafetyLevel.safe }]
    ∧ (diffSnapshots dbSnapshot codeSnapshot).down.filter
        (fun k => k.command.base.collRef == some c) =
      [{ command := InjCmd.manualComment (Cmd.dropCollection c)
         description := "Drop collection '" ++ c ++ "'"
         safetyLevel := SafetyLevel.dangerous }] := by
  have hcCodeN : c ∈ (normalizeSnapshot codeSnapshot).collections.map Prod.fst :=
    (normalizeSnapshot_keys_perm codeSnapshot).mem_iff.mpr hcCode
  have hcDbN : c ∉ (normalizeSnapshot dbSnapshot).collections.map Prod.fst :=
    fun h => hcDb ((normalizeSnapshot_keys_perm dbSnapshot).mem_iff.mp h)
  have hndN : ((normalizeSnapshot codeSnapshot).collections.map Prod.fst).Nodup :=
    ((normalizeSnapshot_keys_perm codeSnapshot).nodup_iff).mpr hnd
  have hpc : (!((normalizeSnapshot dbSnapshot).collections.map Prod.fst).contains c) = true := by
    rw [contains_eq_false_of_not_mem hcDbN]
    rfl
  have hflatUp : ((((normalizeSnapshot codeSnapshot).collections.map
      (fun p : String × NormalizedCollection =>
        match (normalizeSnapshot dbSnapshot).collections.lookup p.1 with
        | some dbCollection => collectionFieldIndexDiff p.1 dbCollection p.2
        | none => ({ up := [], down := [], warnings := [] } : DiffChunk))).flatMap
        (fun ch => ch.up)).map injectMC).filter
        (fun k => k.command.base.collRef == some c) = [] := by
    rw [List.filter_eq_nil_iff]
    intro k hk
    rcases List.mem_map.mp hk with ⟨y, hy, rfl⟩
    rcases List.mem_flatMap.mp hy with ⟨chunk, hchunk, hyc⟩
    rcases List.mem_map.mp hchunk with ⟨p, hp, hcp⟩
    rcases hdb : (normalizeSnapshot dbSnapshot).collections.lookup p.1 with _ | dbc
    · rw [hdb] at hcp
      rw [← hcp] at hyc
      simp at hyc
    · rw [hdb] at hcp
      rw [← hcp] at hyc
      have hne : p.1 ≠ c := fun heq => hcDbN (heq ▸ mem_keys_of_lookup_some hdb)
      rw [(injectMC_fields y).1]
      rcases chunk_up_collRef hyc with hcr | hcr <;> rw [hcr] <;> simp [hne]
  have hflatDown : ((((normalizeSnapshot codeSnapshot).collections.map
      (fun p : String × NormalizedCollection =>
        match (normalizeSnapshot dbSnapshot).collections.lookup p.1 with
        | some dbCollection => collectionFieldIndexDiff p.1 dbCollection p.2
        | none => ({ up := [], down := [], warnings := [] } : DiffChunk))).flatMap
        (fun ch => ch.down)).map injectMC).filter
        (fun k => k.command.base.collRef == some c) = [] := by
    rw [List.filter_eq_nil_iff]
    intro k hk
    rcases List.mem_map.mp hk with ⟨y, hy, rfl⟩
    rcases List.mem_flatMap.mp hy with ⟨chunk, hchunk, hyc⟩
    rcases List.mem_map.mp hchunk with ⟨p, hp, hcp⟩
    rcases hdb : (normalizeSnapshot dbSnapshot).collections.lookup p.1 with _ | dbc
    · rw [hdb] at hcp
      rw [← hcp] at hyc
      simp at hyc
    · rw [hdb] at hcp
      rw [← hcp] at hyc
      have hne : p.1 ≠ c := fun heq => hcDbN (heq ▸ mem_keys_of_lookup_some hdb)
      rw [(injectMC_fields y).1]
      rcases chunk_down_collRef hyc with hcr | hcr <;> rw [hcr] <;> simp [hne]
  have hremUp : ((((normalizeSnapshot dbSnapshot).collections.map Prod.fst).filter
        (fun n => !((normalizeSnapshot codeSnapshot).collections.map Prod.fst).contains n)).filter
        (fun n => n == c)) = [] :=
    filter_beq_nil (fun hmem => hcDbN (List.mem_of_mem_filter hmem))
  have haddUp : ((((normalizeSnapshot codeSnapshot).collections.map Prod.fst).filter
        (fun n => !((normalizeSnapshot dbSnapshot).collections.map Prod.fst).contains n)).filter
        (fun n => n == c)) = [c] :=
    nodup_filter_filter_beq hndN hcCodeN hpc
  constructor
  · rw [diffSnapshots_up_eq, List.map_append, List.filter_append, hflatUp, List.append_nil]
    show List.filter (fun k => k.command.base.collRef == some c)
      (List.map injectMC
        (((((normalizeSnapshot codeSnapshot).collections.map Prod.fst).filter
            (fun n => !((normalizeSnapshot dbSnapshot).collections.map Prod.fst).contains n)).map
            (fun n => ({ command := Cmd.createCollection n
                         description := "Create collection '" ++ n ++ "'"
                         safetyLevel := SafetyLevel.safe } : MigrationCommand Cmd)))
          ++ ((((normalizeSnapshot dbSnapshot).collections.map Prod.fst).filter
            (fun n => !((normalizeSnapshot codeSnapshot).collections.map Prod.fst).contains n)).map
            (fun n => ({ command := Cmd.dropCollection n
                         description := "Drop collection '" ++ n ++ "'"
                         safetyLevel := SafetyLevel.dangerous } : MigrationCommand Cmd))))) = _
    rw [List.map_append, List.filter_append, List.map_map, List.map_map,
      mapped_filter_singleton c (fun _ => rfl), mapped_filter_singleton c (fun _ => rfl),
      haddUp, hremUp]
    rfl
  · rw [diffSnapshots_down_eq, List.map_append, List.filter_append, hflatDown, List.append_nil]
    show List.filter (fun k => k.command.base.collRef == some c)
      (List.map injectMC
        (((((normalizeSnapshot codeSnapshot).collections.map Prod.fst).filter
            (fun n => !((normalizeSnapshot dbSnapshot).collections.map Prod.fst).contains n)).map
            (fun n => ({ command := Cmd.dropCollection n
                         description := "Drop collection '" ++ n ++ "'"
                         safetyLevel := SafetyLevel.dangerous } : MigrationCommand Cmd)))
          ++ ((((normalizeSnapshot dbSnapshot).collections.map Prod.fst).filter
            (fun n => !((normalizeSnapshot codeSnapshot).collections.map Prod.fst).contains n)).map
            (fun n => ({ command := Cmd.createCollection n
                         description := "Recreate collection '" ++ n ++ "'"
                         safetyLevel := SafetyLevel.safe } : MigrationCommand Cmd))))) = _
    rw [List.map_append, List.filter_append, List.map_map, List.map_map,
      mapped_filter_singleton c (fun _ => rfl), mapped_filter_singleton c (fun _ => rfl),
      haddUp, hremUp]
    rfl

/-- Database snapshot for the C9 witness: no `comments` collection. -/
def dbSnapshotC9 : Snapshot :=
  { version := 1, hash := ""
    collections := [("users", { fields := [("name", strFieldDef)], indexes := some [] })] }

/-- Declared snapshot for the C9 witness: adds a `comments` collection that
itself declares a field and an index. -/
def codeSnapshotC9 : Snapshot :=
  { version := 1, hash := ""
    collections := [("users", { fields := [("name", strFieldDef)], indexes := some [] }),
      ("comments", { fields := [("postId", strFieldDef)], indexes := some [indexOnA] })] }

/-- C9 witness: for the concrete snapshots above, the hypotheses hold and the
diff emits exactly the create/drop pair for `comments`, filtered by decidable
evaluation. -/
theorem C9_new_collection_commands_witness :
    ("comments" ∈ codeSnapshotC9.collections.map Prod.fst
      ∧ "comments" ∉ dbSnapshotC9.collections.map Prod.fst
      ∧ (codeSnapshotC9.collections.map Prod.fst).Nodup)
    ∧ ((diffSnapshots dbSnapshotC9 codeSnapshotC9).up.filter
        (fun k => k.command.base.collRef == some "comments") =
      [{ command := InjCmd.sessioned (Cmd.createCollection "comments")
         description := "Create collection 'comments'"
         safetyLevel := SafetyLevel.safe }]
    ∧ (diffSnapshots dbSnapshotC9 codeSnapshotC9).down.filter
        (fun k => k.command.base.collRef == some "comments") =
      [{ command := InjCmd.manualComment (Cmd.dropCollection "comments")
         description := "Drop collection 'comments'"
         safetyLevel := SafetyLevel.dangerous }]) :=
  ⟨⟨by decide, by decide, by decide⟩,
    C9_new_collection_commands dbSnapshotC9 codeSnapshotC9 "comments"
      (by decide) (by decide) (by decide)⟩

/-- A key absent from an association list is absent from any filtering of
it. -/
theorem lookup_filter_none {β : Type} (q : String × β → Bool) {f : String} :
    ∀ {l : List (String × β)}, l.lookup f = none → (l.filter q).lookup f = none
  | [], _ => rfl
  | (a, b) :: t, h => by
    by_cases hk : a = f
    · subst hk
      rw [List.lookup, beq_self_eq_true] at h
      exact Option.noConfusion h
    · rw [List.lookup, beq_false_of_ne (fun he => hk he.symm)] at h
      rw [List.filter]
      cases hq : q (a, b)
      · exact lookup_filter_none q h
      · rw [List.lookup, beq_false_of_ne (fun he => hk he.symm)]
        exact lookup_filter_none q h

/-- A successful lookup exhibits a member of the association list. -/
theorem lookup_mem {β : Type} {f : String} {d : β} :
    ∀ {l : List (String × β)}, l.lookup f = some d → (f, d) ∈ l
  | [], h => Option.noConfusion h
  | (a, b) :: t, h => by
    by_cases hk : a = f
    · subst hk
      rw [List.lookup, beq_self_eq_true] at h
      have hbd : b = d := Option.some.inj h
      subst hbd
      exact List.mem_cons_self _ _
    · rw [List.lookup, beq_false_of_ne (fun he => hk he.symm)] at h
      exact List.mem_cons_of_mem _ (lookup_mem h)

/-- C6.  Default-value synthesis for a declared field absent from the
observed fields and carrying no explicit default: its add-field up command
enters the diff, and if the field is non-nullable and required it sets the
type-based default and pushes exactly the generated-default warning, while
in every other case it sets null and pushes no warning; the type-based
defaults are the six zero values the spec lists. -/
theorem C6_default_synthesis_policy (n f : String)
    (dbFields codeFields : List (String × FieldDefinition)) (d : FieldDefinition)
    (hmanaged : f ∉ MONGOOSE_MANAGED_FIELDS)
    (hdb : dbFields.lookup f = none)
    (hcode : codeFields.lookup f = some d)
    (hnodef : d.default = none) :
    (newFieldMigration n f d).up ∈ (diffFieldsRefined n dbFields codeFields false).up
    ∧ (if ¬ d.nullable ∧ d.required then
        (newFieldMigration n f d).up.command = Cmd.setField n f (typeBasedDefault d.type)
          ∧ (newFieldMigration n f d).warnings
            = [generatedDefaultWarning n f (typeBasedDefault d.type)]
      else
        (newFieldMigration n f d).up.command = Cmd.setField n f MValue.vnull
          ∧ (newFieldMigration n f d).warnings = [])
    ∧ typeBasedDefault "String" = MValue.vstr ""
    ∧ typeBasedDefault "Number" = MValue.vnum 0
    ∧ typeBasedDefault "Boolean" = MValue.vbool false
    ∧ typeBasedDefault "Date" = MValue.vdateNow
    ∧ typeBasedDefault "Array" = MValue.vemptyArr
    ∧ typeBasedDefault "Object" = MValue.vemptyObj := by
  refine ⟨?_, ?_, rfl, rfl, rfl, rfl, rfl, rfl⟩
  · have hpred : (!MONGOOSE_MANAGED_FIELDS.contains f) = true := by
      rw [contains_eq_false_of_not_mem hmanaged]
      rfl
    have hmemF : (f, d) ∈ codeFields.filter
        (fun p => !MONGOOSE_MANAGED_FIELDS.contains p.1) :=
      List.mem_filter.mpr ⟨lookup_mem hcode, hpred⟩
    have hdbF : ((dbFields.filter
        (fun p => !MONGOOSE_MANAGED_FIELDS.contains p.1)).lookup f) = none :=
      lookup_filter_none _ hdb
    have hmemF2 : (f, d) ∈ (codeFields.filter
        (fun p => !MONGOOSE_MANAGED_FIELDS.contains p.1)).filter
        (fun p => ((dbFields.filter
          (fun q => !MONGOOSE_MANAGED_FIELDS.contains q.1)).lookup p.1).isNone) := by
      refine List.mem_filter.mpr ⟨hmemF, ?_⟩
      show ((dbFields.filter
        (fun q => !MONGOOSE_MANAGED_FIELDS.contains q.1)).lookup f).isNone = true
      rw [hdbF]
      rfl
    exact List.mem_append_left _ (List.mem_append_left _
      (List.mem_map_of_mem _ (List.mem_map_of_mem _ hmemF2)))
  · obtain ⟨ty, nb, rq, df, en, nf⟩ := d
    have hdf : df = none := hnodef
    subst hdf
    cases nb <;> cases rq <;> exact ⟨rfl, rfl⟩

/-- The declared field used by the C6 witness: required, non-nullable
String with no explicit default. -/
def reqPhoneField : FieldDefinition :=
  { type := "String", nullable := false, required := true }

/-- C6 witness: the policy applied to a concrete required String field
declared only on the code side. -/
theorem C6_default_synthesis_policy_witness :
    ("phone" ∉ MONGOOSE_MANAGED_FIELDS
      ∧ ([] : List (String × FieldDefinition)).lookup "phone" = none
      ∧ [("phone", reqPhoneField)].lookup "phone" = some reqPhoneField
      ∧ reqPhoneField.default = none)
    ∧ ((newFieldMigration "users" "phone" reqPhoneField).up
        ∈ (diffFieldsRefined "users" [] [("phone", reqPhoneField)] false).up
      ∧ (newFieldMigration "users" "phone" reqPhoneField).up.command
          = Cmd.setField "users" "phone" (typeBasedDefault reqPhoneField.type)
      ∧ (newFieldMigration "users" "phone" reqPhoneField).warnings
          = [generatedDefaultWarning "users" "phone"
              (typeBasedDefault reqPhoneField.type)]) := by
  have h := C6_default_synthesis_policy "users" "phone" []
    [("phone", reqPhoneField)] reqPhoneField (by decide) rfl (by decide) rfl
  exact ⟨⟨by decide, rfl, by decide, rfl⟩, h.1, h.2.1.1, h.2.1.2⟩

/-- Whether a command is one of the two type-change review comments. -/
def Cmd.isTypeChange : Cmd → Bool
  | .reviewTypeChange _ _ _ => true
  | .revertTypeChange _ _ _ => true
  | _ => false

/-- A member of a string list tests `contains` true. -/
theorem contains_eq_true_of_mem {l : List String} {c : String} (h : c ∈ l) :
    l.contains c = true := by
  induction l with
  | nil => cases h
  | cons a t ih =>
    rw [List.contains_cons]
    rcases List.mem_cons.mp h with rfl | hct
    · rw [beq_self_eq_true]
      exact Bool.true_or _
    · rw [ih hct]
      exact Bool.or_true _

/-- The significance gate of `compareFields`: a significant change means a
genuine type change away from `Mixed`, into a non-`Mixed` type, on a field
that is not auto-generated. -/
theorem significantChange_conditions {df cf : FieldDefinition} {f : String}
    (h : (compareFields df cf f).significantChange = true) :
    df.type ≠ "Mixed" ∧ df.type ≠ cf.type ∧ cf.type ≠ "Mixed"
      ∧ f ∉ AUTO_GENERATED_FIELDS := by
  unfold compareFields at h
  dsimp only at h
  split at h
  · rename_i hcond
    exact ⟨hcond.1, hcond.2.1, hcond.2.2.1,
      fun hmem => hcond.2.2.2 (contains_eq_true_of_mem hmem)⟩
  · cases h

/-- A field of a normalized collection traces back to the raw snapshot
with the same definition. -/
theorem normalized_field_mem {db : Snapshot} {n : String} {dbc : NormalizedCollection}
    (h : (normalizeSnapshot db).collections.lookup n = some dbc)
    {f : String} {d : FieldDefinition} (hf : (f, d) ∈ dbc.fields) :
    ∃ cs, (n, cs) ∈ db.collections ∧ (f, d) ∈ cs.fields := by
  have hmem : (n, dbc) ∈ (normalizeSnapshot db).collections := lookup_mem h
  rcases List.mem_map.mp hmem with ⟨p, hp, hpe⟩
  have hp1 : p.1 = n := congrArg Prod.fst hpe
  have hp2 : normalizeCollection p.2 = dbc := congrArg Prod.snd hpe
  refine ⟨p.2, ?_, ?_⟩
  · have hpmem : p ∈ db.collections := (sortPairsByKey_perm db.collections).mem_iff.mp hp
    rw [← hp1]
    exact hpmem
  · rw [← hp2] at hf
    exact List.mem_of_mem_filter ((sortPairsByKey_perm _).mem_iff.mp hf)

/-- C10.  Modified-field policy: a modified-field pair is emitted only
when the observed type is neither `Mixed` nor equal to the declared type,
the declared type is not `Mixed`, and the field is not auto-generated (the
pair being the review/revert comment pair); equal types — hence
differences only in nullable, required, default or enum — never emit;
the database sampler types every field `Mixed`; and a diff whose observed
snapshot types every field `Mixed` contains no type-change command. -/
theorem C10_modified_field_policy :
    (∀ (n f : String) (dbF codeF : FieldDefinition) (e : FieldDiffEntry),
      modifiedFieldMigration n f dbF codeF = some e →
        dbF.type ≠ "Mixed" ∧ dbF.type ≠ codeF.type ∧ codeF.type ≠ "Mixed"
          ∧ f ∉ AUTO_GENERATED_FIELDS
          ∧ e.up.command = Cmd.reviewTypeChange f dbF.type codeF.type
          ∧ e.down.command = Cmd.revertTypeChange f codeF.type dbF.type)
    ∧ (∀ (n f : String) (dbF codeF : FieldDefinition), dbF.type = codeF.type →
        modifiedFieldMigration n f dbF codeF = none)
    ∧ (∀ info, (fieldDefFromInfo info).type = "Mixed")
    ∧ (∀ (dbSnapshot codeSnapshot : Snapshot),
        (∀ co cs, (co, cs) ∈ dbSnapshot.collections →
          ∀ f d, (f, d) ∈ cs.fields → d.type = "Mixed") →
        ((diffSnapshots dbSnapshot codeSnapshot).up
          ++ (diffSnapshots dbSnapshot codeSnapshot).down).filter
          (fun k => k.command.base.isTypeChange) = []) := by
  refine ⟨?_, ?_, fun _ => rfl, ?_⟩
  · intro n f dbF codeF e h
    obtain ⟨hch, hsig, hupc, hupS, hdnc, hdnS⟩ := modifiedFieldMigration_some h
    obtain ⟨h1, h2, h3, h4⟩ := significantChange_conditions hsig
    exact ⟨h1, h2, h3, h4, hupc, hdnc⟩
  · intro n f dbF codeF hty
    unfold modifiedFieldMigration
    dsimp only
    exact if_neg (fun hcond =>
      absurd hty (significantChange_conditions hcond.2).2.1)
  · intro dbSnapshot codeSnapshot hmix
    rw [List.filter_eq_nil_iff]
    intro k hk
    rcases List.mem_append.mp hk with hk | hk
    · obtain ⟨y, rfl, hy⟩ := diffSnapshots_up_mem hk
      rw [(injectMC_fields y).1]
      rcases hy with hy | ⟨n, dbc, cc, hcc, hdb, hy⟩
      · rcases diffCollections_up_mem hy with ⟨nm, _, _, rfl⟩ | ⟨nm, _, _, rfl⟩ <;>
          simp [Cmd.isTypeChange]
      · rcases collectionFieldIndexDiff_up_mem hy with hy | hy
        · rcases diffFieldsRefined_up_mem hy with
            ⟨f, d, _, rfl⟩ | ⟨f, d, _, rfl⟩ | ⟨f, df, cf, e, hdf, hcf, he, rfl⟩
          · obtain ⟨v, hcmd, _⟩ := newFieldMigration_up_shape n f d
            rw [hcmd]
            simp [Cmd.isTypeChange]
          · rw [(removedFieldMigration_shape n f).1]
            simp [Cmd.isTypeChange]
          · obtain ⟨cs, hcs, hfd⟩ := normalized_field_mem hdb hdf
            have hdmix : df.type = "Mixed" := hmix n cs hcs f df hfd
            exact absurd hdmix
              (significantChange_conditions (modifiedFieldMigration_some he).2.1).1
        · rcases diffIndexes_up_mem hy with ⟨i, rfl⟩ | ⟨i, rfl⟩
          · rw [(addedIndexEntry_shape n i).1]
            simp [Cmd.isTypeChange]
          · rw [(removedIndexEntry_shape n i).1]
            simp [Cmd.isTypeChange]
    · obtain ⟨y, rfl, hy⟩ := diffSnapshots_down_mem hk
      rw [(injectMC_fields y).1]
      rcases hy with hy | ⟨n, dbc, cc, hcc, hdb, hy⟩
      · rcases diffCollections_down_mem hy with ⟨nm, _, _, rfl⟩ | ⟨nm, _, _, rfl⟩ <;>
          simp [Cmd.isTypeChange]
      · rcases collectionFieldIndexDiff_down_mem hy with hy | hy
        · rcases diffFieldsRefined_down_mem hy with
            ⟨f, d, _, rfl⟩ | ⟨f, d, _, rfl⟩ | ⟨f, df, cf, e, hdf, hcf, he, rfl⟩
          · rw [newFieldMigration_down_shape]
            simp [Cmd.isTypeChange]
          · rw [(removedFieldMigration_shape n f).2.2.1]
            simp [Cmd.isTypeChange]
          · obtain ⟨cs, hcs, hfd⟩ := normalized_field_mem hdb hdf
            have hdmix : df.type = "Mixed" := hmix n cs hcs f df hfd
            exact absurd hdmix
              (significantChange_conditions (modifiedFieldMigration_some he).2.1).1
        · rcases diffIndexes_down_mem hy with ⟨i, rfl⟩ | ⟨i, rfl⟩
          · rw [(addedIndexEntry_shape n i).2.2.1]
            simp [Cmd.isTypeChange]
          · rw [(removedIndexEntry_shape n i).2.2.1]
            simp [Cmd.isTypeChange]

/-- A field definition as the database sampler records it, typed `Mixed`. -/
def mixedAgeField : FieldDefinition :=
  { type := "Mixed", nullable := true, required := false }

/-- Observed snapshot for the C10 witness: every field typed `Mixed`. -/
def dbSnapshotC10 : Snapshot :=
  { version := 1, hash := ""
    collections := [("users", { fields := [("age", mixedAgeField)], indexes := some [] })] }

/-- Declared snapshot for the C10 witness. -/
def codeSnapshotC10 : Snapshot :=
  { version := 1, hash := ""
    collections := [("users", { fields := [("age", strFieldDef)], indexes := some [] })] }

/-- C10 witness: the policy applied to a concrete sampled (all-`Mixed`)
snapshot and to a concrete equal-type field pair. -/
theorem C10_modified_field_policy_witness :
    (∀ co cs, (co, cs) ∈ dbSnapshotC10.collections →
        ∀ f d, (f, d) ∈ cs.fields → d.type = "Mixed")
    ∧ ((diffSnapshots dbSnapshotC10 codeSnapshotC10).up
        ++ (diffSnapshots dbSnapshotC10 codeSnapshotC10).down).filter
        (fun k => k.command.base.isTypeChange) = []
    ∧ modifiedFieldMigration "users" "age" strFieldDef strFieldDef = none := by
  have hmix : ∀ co cs, (co, cs) ∈ dbSnapshotC10.collections →
      ∀ f d, (f, d) ∈ cs.fields → d.type = "Mixed" := by
    intro co cs h f d hf
    cases h with
    | head =>
      cases hf with
      | head => rfl
      | tail _ hf2 => cases hf2
    | tail _ h2 => cases h2
  exact ⟨hmix, C10_modified_field_policy.2.2.2 dbSnapshotC10 codeSnapshotC10 hmix,
    C10_modified_field_policy.2.1 "users" "age" strFieldDef strFieldDef rfl⟩
